import Mathlib

/-!
Shallow embedding of the stock subsystem of the erp-system repository
(`src/services/stock_service/service.py`, `models.py`, `schemas.py`).

Modelling conventions:
* `DECIMAL(18,4)` columns are modelled as exact rationals (`ℚ`); Python
  `Decimal` arithmetic on the values occurring here is exact.
* The SQLAlchemy session is modelled transactionally: each operation body
  computes a candidate new database; `commit` makes it the new state, an
  exception before `commit` leaves the committed state unchanged (the
  session is discarded without committing).
* Generated identifiers (`generate_move_no`, `generate_lock_no`,
  `generate_batch_no`, autoincrement primary keys, `created_at`
  timestamps) are drawn from one monotone counter `nextId`; this captures
  uniqueness and creation order, which is all the code relies on.
* Kafka publishing (`_publish_stock_event`) is modelled as an event
  appended to an observable trace (the sink is taken as configured);
  `db.commit()` is likewise recorded in the trace, so ordering of
  publishes versus the commit is observable.
-/

namespace ErpStock

/-- `MoveType` enum of `schemas.py`. -/
inductive MoveType where
  | IN | OUT | LOCK | UNLOCK | ADJUST
deriving DecidableEq, Repr

/-- Status values of `StockLock.status` (`LOCKED`/`UNLOCKED`/`CONSUMED`). -/
inductive LockStatus where
  | LOCKED | UNLOCKED | CONSUMED
deriving DecidableEq, Repr

/-- Row of the `stock` table (`models.py`, class `Stock`). -/
structure Stock where
  sku_id : String
  warehouse_id : Int
  qty : ℚ
  locked_qty : ℚ
  available_qty : ℚ
  avg_cost : ℚ
deriving DecidableEq, Repr

/-- Row of the `stock_detail` table (`models.py`, class `StockDetail`).
`detail_id` models the autoincrement primary key (ORM object identity),
`created_at` the insertion timestamp used for FIFO ordering. -/
structure StockDetail where
  detail_id : Nat
  sku_id : String
  warehouse_id : Int
  batch_no : String
  qty : ℚ
  locked_qty : ℚ
  unit_cost : ℚ
  source_type : String
  source_order_no : Option String
  created_at : Nat
deriving DecidableEq, Repr

/-- Row of the `stock_move` table (`models.py`, class `StockMove`).
`move_no` models the generated unique move number. -/
structure StockMove where
  move_no : Nat
  sku_id : String
  warehouse_id : Int
  move_type : MoveType
  qty : ℚ
  before_qty : ℚ
  after_qty : ℚ
  unit_cost : ℚ
  source_type : String
  source_order_no : Option String
  batch_no : Option String
deriving DecidableEq, Repr

/-- Row of the `stock_lock` table (`models.py`, class `StockLock`). -/
structure StockLock where
  lock_no : Nat
  sku_id : String
  warehouse_id : Int
  locked_qty : ℚ
  status : LockStatus
  source_type : String
  source_order_no : String
deriving DecidableEq, Repr

/-- The committed database state of the stock service. -/
structure DB where
  stocks : List Stock
  details : List StockDetail
  moves : List StockMove
  locks : List StockLock
  nextId : Nat
deriving DecidableEq, Repr

/-- The empty initial database. -/
def initDB : DB := ⟨[], [], [], [], 0⟩

/-- Argument record of `_publish_stock_event`. -/
structure PubEvent where
  sku_id : String
  warehouse_id : Int
  move_type : MoveType
  qty : ℚ
  before_qty : ℚ
  after_qty : ℚ
  source_type : String
  source_order_no : Option String
deriving DecidableEq, Repr

/-- Observable actions of an operation: a Kafka publish
(`_publish_stock_event`) or the transaction commit (`db.commit()`). -/
inductive Ev where
  | publish (e : PubEvent)
  | commit
deriving DecidableEq, Repr

/-- Whether a trace event is a publish. -/
def Ev.isPublish : Ev → Bool
  | .publish _ => true
  | .commit => false

/-- Error codes raised as `BusinessException(code=...)` in `service.py`. -/
inductive BizError where
  | STOCK_NOT_FOUND
  | INSUFFICIENT_STOCK
  | INSUFFICIENT_BATCH_STOCK
  | INSUFFICIENT_AVAILABLE_STOCK
  | LOCK_NOT_FOUND
  | INVALID_REQUEST
deriving DecidableEq, Repr

/-! ### Request schemas (`schemas.py`) -/

/-- `StockInItem`: pydantic enforces `qty > 0`, `unit_cost ≥ 0`. -/
structure StockInItem where
  sku_id : String
  qty : ℚ
  unit_cost : ℚ
  batch_no : Option String
deriving DecidableEq, Repr

/-- `StockInRequest` (items validated non-empty by `min_length=1`). -/
structure StockInRequest where
  warehouse_id : Int
  source_type : String
  source_order_no : String
  items : List StockInItem
deriving DecidableEq, Repr

/-- `StockOutItem`: pydantic enforces `qty > 0`. -/
structure StockOutItem where
  sku_id : String
  qty : ℚ
  batch_no : Option String
deriving DecidableEq, Repr

/-- `StockOutRequest`. -/
structure StockOutRequest where
  warehouse_id : Int
  source_type : String
  source_order_no : String
  items : List StockOutItem
deriving DecidableEq, Repr

/-- `StockLockItem`: pydantic enforces `qty > 0`. -/
structure StockLockItem where
  sku_id : String
  qty : ℚ
deriving DecidableEq, Repr

/-- `StockLockRequest`. -/
structure StockLockRequest where
  warehouse_id : Int
  source_type : String
  source_order_no : String
  items : List StockLockItem
deriving DecidableEq, Repr

/-- `StockUnlockRequest`: both selectors optional. -/
structure StockUnlockRequest where
  lock_nos : Option (List Nat)
  source_order_no : Option String
deriving DecidableEq, Repr

/-- Python truthiness of an optional list (`if request.lock_nos:`):
`None` and the empty list are falsy. -/
def pyTruthyList (o : Option (List Nat)) : Bool :=
  match o with
  | none => false
  | some l => !l.isEmpty

/-- Python truthiness of an optional string (`if request.source_order_no:`
or `if batch_no:`): `None` and the empty string are falsy. -/
def pyTruthyStr (o : Option String) : Bool :=
  match o with
  | none => false
  | some s => !s.isEmpty

/-! ### Queries and primitive updates -/

/-- `get_stock`: `SELECT ... FROM stock WHERE sku_id = .. AND warehouse_id = ..`
(the key has a unique constraint, so `scalar_one_or_none` is `find?`). -/
def getStock (db : DB) (sku : String) (wh : Int) : Option Stock :=
  db.stocks.find? (fun st => st.sku_id == sku && st.warehouse_id == wh)

/-- Write back a mutated ORM `Stock` object: replaces the row with the
same unique `(sku_id, warehouse_id)` key. -/
def setStock (db : DB) (st' : Stock) : DB :=
  { db with stocks := db.stocks.map (fun st =>
      if st.sku_id == st'.sku_id && st.warehouse_id == st'.warehouse_id then st' else st) }

/-- `WHERE` clause of `_get_available_details`: key match, `qty > 0`, and
the optional batch filter (skipped when `batch_no` is falsy). -/
def detailCandidate (sku : String) (wh : Int) (bf : Option String) (d : StockDetail) : Bool :=
  d.sku_id == sku && d.warehouse_id == wh && decide (0 < d.qty) &&
    (if pyTruthyStr bf then d.batch_no == bf.getD "" else true)

/-- Ordering relation of `ORDER BY created_at` (ascending). -/
def createdLE (a b : StockDetail) : Prop := a.created_at ≤ b.created_at

instance : DecidableRel createdLE := fun a b => Nat.decLe a.created_at b.created_at

instance : IsTotal StockDetail createdLE := ⟨fun a b => Nat.le_total a.created_at b.created_at⟩

instance : IsTrans StockDetail createdLE := ⟨fun _ _ _ h h' => Nat.le_trans h h'⟩

/-- `_get_available_details`: filtered details ordered by `created_at`
ascending (FIFO). -/
def getAvailableDetails (db : DB) (sku : String) (wh : Int) (bf : Option String) :
    List StockDetail :=
  List.insertionSort createdLE (db.details.filter (detailCandidate sku wh bf))

/-- `deduct_qty = min(available, remaining_qty)` of the FIFO loops;
`useLocked` selects the per-row available amount: `stock_out` uses
`detail.qty - detail.locked_qty`, `consume_locked_stock` uses `detail.qty`. -/
def walkDeduct (useLocked : Bool) (d : StockDetail) (remaining : ℚ) : ℚ :=
  min (if useLocked then d.qty - d.locked_qty else d.qty) remaining

/-- The in-loop FIFO depletion of `stock_out` / `consume_locked_stock`
over the ordered candidate list (`for detail in details: if remaining <= 0:
break; ...`).  Returns the mutated candidate rows, the remaining
undeducted quantity and the accumulated `out_cost`. -/
def depleteWalk (useLocked : Bool) (remaining : ℚ) :
    List StockDetail → List StockDetail × ℚ × ℚ
  | [] => ([], remaining, 0)
  | d :: ds =>
    if 0 < remaining then
      ({ d with qty := d.qty - walkDeduct useLocked d remaining } ::
         (depleteWalk useLocked (remaining - walkDeduct useLocked d remaining) ds).1,
       (depleteWalk useLocked (remaining - walkDeduct useLocked d remaining) ds).2.1,
       walkDeduct useLocked d remaining * d.unit_cost +
         (depleteWalk useLocked (remaining - walkDeduct useLocked d remaining) ds).2.2)
    else
      (d :: ds, remaining, 0)

/-- Session write-back of mutated ORM detail rows: each row of the table
whose primary key appears in `updated` is replaced by its mutated copy. -/
def writeBackDetails (details updated : List StockDetail) : List StockDetail :=
  details.map (fun d =>
    match updated.find? (fun u => u.detail_id == d.detail_id) with
    | some u => u
    | none => d)

/-- Status update of a lock record identified by its unique `lock_no`. -/
def setLockStatus (locks : List StockLock) (n : Nat) (s : LockStatus) : List StockLock :=
  locks.map (fun l => if l.lock_no == n then { l with status := s } else l)

/-- Sum of `qty` over the detail rows of one `(sku, warehouse)` key. -/
def detailSum (details : List StockDetail) (sku : String) (wh : Int) : ℚ :=
  ((details.filter (fun d => d.sku_id == sku && d.warehouse_id == wh)).map
    (fun d => d.qty)).sum

/-- Sum of `locked_qty` over the `LOCKED` lock records of one key. -/
def lockSum (locks : List StockLock) (sku : String) (wh : Int) : ℚ :=
  ((locks.filter (fun l => l.sku_id == sku && l.warehouse_id == wh &&
      decide (l.status = LockStatus.LOCKED))).map (fun l => l.locked_qty)).sum

/-! ### The five mutating operations of `StockService` -/

/-- One iteration of the `stock_in` item loop: moving-average cost update,
quantity update, new batch detail, new movement row, and the publish-event
arguments.  `item.batch_no or generate_batch_no()` uses Python truthiness. -/
def stockInStep (wh : Int) (stp sono : String) (db : DB) (item : StockInItem) :
    DB × PubEvent :=
  let found := getStock db item.sku_id wh
  let db0 := match found with
    | some _ => db
    | none => { db with stocks := db.stocks ++ [⟨item.sku_id, wh, 0, 0, 0, 0⟩] }
  let stock0 := found.getD ⟨item.sku_id, wh, 0, 0, 0, 0⟩
  let before_qty := stock0.qty
  let avg' := if 0 < stock0.qty + item.qty then
      (stock0.qty * stock0.avg_cost + item.qty * item.unit_cost) / (stock0.qty + item.qty)
    else stock0.avg_cost
  let qty' := stock0.qty + item.qty
  let stock1 : Stock :=
    { stock0 with qty := qty', available_qty := qty' - stock0.locked_qty, avg_cost := avg' }
  let n := db0.nextId
  let batch := if pyTruthyStr item.batch_no then item.batch_no.getD "" else "BN" ++ toString n
  let detail : StockDetail := ⟨n, item.sku_id, wh, batch, item.qty, 0, item.unit_cost, stp, some sono, n⟩
  let move : StockMove :=
    ⟨n, item.sku_id, wh, .IN, item.qty, before_qty, qty', item.unit_cost, stp, some sono, some batch⟩
  let db1 := setStock db0 stock1
  ({ db1 with details := db1.details ++ [detail], moves := db1.moves ++ [move], nextId := n + 1 },
   ⟨item.sku_id, wh, .IN, item.qty, before_qty, qty', stp, some sono⟩)

/-- The `for item in request.items` loop of `stock_in`; the publish for each
item happens inside the loop, before the final commit. -/
def stockInLoop (wh : Int) (stp sono : String) (db : DB) :
    List StockInItem → DB × List Ev
  | [] => (db, [])
  | item :: rest =>
    let s := stockInStep wh stp sono db item
    let r := stockInLoop wh stp sono s.1 rest
    (r.1, Ev.publish s.2 :: r.2)

/-- `StockService.stock_in`: processes all items, then commits.  It raises
no business error (item validation is done by the request schema). -/
def stock_in (db : DB) (req : StockInRequest) : DB × List Ev :=
  let r := stockInLoop req.warehouse_id req.source_type req.source_order_no db req.items
  (r.1, r.2 ++ [Ev.commit])

/-- One iteration of the `stock_out` item loop: availability checks, FIFO
batch depletion, aggregate update, movement row.  The in-session batch
mutations preceding an `INSUFFICIENT_BATCH_STOCK` raise are discarded with
the session, so the error branches return no state. -/
def stockOutStep (wh : Int) (stp sono : String) (db : DB) (item : StockOutItem) :
    Except BizError (DB × ℚ × PubEvent) :=
  match getStock db item.sku_id wh with
  | none => .error .STOCK_NOT_FOUND
  | some stock =>
    if stock.available_qty < item.qty then .error .INSUFFICIENT_STOCK
    else
      let w := depleteWalk true item.qty (getAvailableDetails db item.sku_id wh item.batch_no)
      if 0 < w.2.1 then .error .INSUFFICIENT_BATCH_STOCK
      else
        let qty' := stock.qty - item.qty
        let stock1 := { stock with qty := qty', available_qty := qty' - stock.locked_qty }
        let n := db.nextId
        let move : StockMove := ⟨n, item.sku_id, wh, .OUT, item.qty, stock.qty, qty',
          if 0 < item.qty then w.2.2 / item.qty else 0, stp, some sono, item.batch_no⟩
        let db1 := setStock { db with details := writeBackDetails db.details w.1 } stock1
        .ok ({ db1 with moves := db1.moves ++ [move], nextId := n + 1 }, w.2.2,
             ⟨item.sku_id, wh, .OUT, item.qty, stock.qty, qty', stp, some sono⟩)

/-- The `stock_out` item loop, threading the working state, the accumulated
`total_cost` and the publish trace; an exception aborts the loop (publishes
of earlier items have already been issued). -/
def stockOutLoop (wh : Int) (stp sono : String) (db : DB) :
    List StockOutItem → Except BizError (DB × ℚ) × List Ev
  | [] => (.ok (db, 0), [])
  | item :: rest =>
    match stockOutStep wh stp sono db item with
    | .error e => (.error e, [])
    | .ok (db1, cost, pe) =>
      let r := stockOutLoop wh stp sono db1 rest
      match r.1 with
      | .error e => (.error e, Ev.publish pe :: r.2)
      | .ok (db2, totc) => (.ok (db2, cost + totc), Ev.publish pe :: r.2)

/-- `StockService.stock_out`: on success the working state commits; on a
business error nothing commits (trace carries no commit event). -/
def stock_out (db : DB) (req : StockOutRequest) : Except BizError (DB × ℚ) × List Ev :=
  let r := stockOutLoop req.warehouse_id req.source_type req.source_order_no db req.items
  match r.1 with
  | .error e => (.error e, r.2)
  | .ok x => (.ok x, r.2 ++ [Ev.commit])

/-- One iteration of the `lock_stock` item loop: availability check, locked
quantity increase, new lock record, movement row.  No event is published. -/
def lockStep (wh : Int) (stp sono : String) (db : DB) (item : StockLockItem) :
    Except BizError DB :=
  match getStock db item.sku_id wh with
  | none => .error .STOCK_NOT_FOUND
  | some stock =>
    if stock.available_qty < item.qty then .error .INSUFFICIENT_AVAILABLE_STOCK
    else
      let before_locked := stock.locked_qty
      let locked' := stock.locked_qty + item.qty
      let stock1 := { stock with locked_qty := locked', available_qty := stock.qty - locked' }
      let n := db.nextId
      let lockRec : StockLock := ⟨n, item.sku_id, wh, item.qty, .LOCKED, stp, sono⟩
      let move : StockMove :=
        ⟨n, item.sku_id, wh, .LOCK, item.qty, before_locked, locked', 0, stp, some sono, none⟩
      let db1 := setStock db stock1
      .ok { db1 with locks := db1.locks ++ [lockRec], moves := db1.moves ++ [move], nextId := n + 1 }

/-- The `lock_stock` item loop. -/
def lockLoop (wh : Int) (stp sono : String) (db : DB) :
    List StockLockItem → Except BizError DB
  | [] => .ok db
  | item :: rest =>
    match lockStep wh stp sono db item with
    | .error e => .error e
    | .ok db1 => lockLoop wh stp sono db1 rest

/-- `StockService.lock_stock`.  Publishes no stock-changed events. -/
def lock_stock (db : DB) (req : StockLockRequest) : Except BizError DB × List Ev :=
  match lockLoop req.warehouse_id req.source_type req.source_order_no db req.items with
  | .error e => (.error e, [])
  | .ok db' => (.ok db', [Ev.commit])

/-- Lock-record selection of `unlock_stock`: records in `LOCKED` status,
filtered by lock numbers when those are truthy, else by source order. -/
def unlockMatchFilter (req : StockUnlockRequest) (l : StockLock) : Bool :=
  decide (l.status = LockStatus.LOCKED) &&
    (if pyTruthyList req.lock_nos then (req.lock_nos.getD []).contains l.lock_no
     else l.source_order_no == req.source_order_no.getD "")

/-- The `unlock_stock` loop over the matched records: if the aggregate row
exists its locked quantity is decreased and a movement row is written; the
record is marked `UNLOCKED` unconditionally and counted. -/
def unlockLoop (db : DB) : List StockLock → DB × Nat
  | [] => (db, 0)
  | l :: rest =>
    let db1 := match getStock db l.sku_id l.warehouse_id with
      | some stock =>
        let before_locked := stock.locked_qty
        let locked' := stock.locked_qty - l.locked_qty
        let stock1 := { stock with locked_qty := locked', available_qty := stock.qty - locked' }
        let n := db.nextId
        let move : StockMove := ⟨n, l.sku_id, l.warehouse_id, .UNLOCK, l.locked_qty,
          before_locked, locked', 0, l.source_type, some l.source_order_no, none⟩
        let dbA := setStock db stock1
        { dbA with moves := dbA.moves ++ [move], nextId := n + 1 }
      | none => db
    let db2 := { db1 with locks := setLockStatus db1.locks l.lock_no .UNLOCKED }
    let r := unlockLoop db2 rest
    (r.1, r.2 + 1)

/-- `StockService.unlock_stock`.  Fails `INVALID_REQUEST` when neither
selector is truthy, `LOCK_NOT_FOUND` when no `LOCKED` record matches.
Publishes no stock-changed events. -/
def unlock_stock (db : DB) (req : StockUnlockRequest) :
    Except BizError (DB × Nat) × List Ev :=
  if !pyTruthyList req.lock_nos && !pyTruthyStr req.source_order_no then
    (.error .INVALID_REQUEST, [])
  else
    let matched := db.locks.filter (unlockMatchFilter req)
    if matched.isEmpty then (.error .LOCK_NOT_FOUND, [])
    else
      let r := unlockLoop db matched
      (.ok r, [Ev.commit])

/-- One iteration of the `consume_locked_stock` loop: a missing aggregate
row is skipped (`continue`, leaving the record `LOCKED`); otherwise the
FIFO walk depletes batches with no shortfall check, the aggregate loses
both quantity and locked quantity, a movement row is written, the record
is marked `CONSUMED` and an event is published. -/
def consumeStep (sono : String) (db : DB) (l : StockLock) : DB × ℚ × List Ev :=
  match getStock db l.sku_id l.warehouse_id with
  | none => (db, 0, [])
  | some stock =>
    let before_qty := stock.qty
    let w := depleteWalk false l.locked_qty (getAvailableDetails db l.sku_id l.warehouse_id none)
    let qty' := stock.qty - l.locked_qty
    let locked' := stock.locked_qty - l.locked_qty
    let stock1 := { stock with qty := qty', locked_qty := locked', available_qty := qty' - locked' }
    let n := db.nextId
    let move : StockMove := ⟨n, l.sku_id, l.warehouse_id, .OUT, l.locked_qty, before_qty, qty',
      if 0 < l.locked_qty then w.2.2 / l.locked_qty else 0, "SALE", some sono, none⟩
    let db1 := setStock { db with details := writeBackDetails db.details w.1 } stock1
    let db2 := { db1 with moves := db1.moves ++ [move], nextId := n + 1 }
    ({ db2 with locks := setLockStatus db2.locks l.lock_no .CONSUMED }, w.2.2,
     [Ev.publish ⟨l.sku_id, l.warehouse_id, .OUT, l.locked_qty, before_qty, qty', "SALE", some sono⟩])

/-- The `consume_locked_stock` loop over the matched records. -/
def consumeLoop (sono : String) (db : DB) : List StockLock → DB × ℚ × List Ev
  | [] => (db, 0, [])
  | l :: rest =>
    let s := consumeStep sono db l
    let r := consumeLoop sono s.1 rest
    (r.1, s.2.1 + r.2.1, s.2.2 ++ r.2.2)

/-- `StockService.consume_locked_stock`: fulfills all `LOCKED` records of
the source order; fails `LOCK_NOT_FOUND` when none match. -/
def consume_locked_stock (db : DB) (sono : String) : Except BizError (DB × ℚ) × List Ev :=
  let matched := db.locks.filter (fun l =>
    l.source_order_no == sono && decide (l.status = LockStatus.LOCKED))
  if matched.isEmpty then (.error .LOCK_NOT_FOUND, [])
  else
    let r := consumeLoop sono db matched
    (.ok (r.1, r.2.1), r.2.2 ++ [Ev.commit])

/-! ### Operations, validation, reachability -/

/-- A call to one of the five mutating operations. -/
inductive Op where
  | opIn (req : StockInRequest)
  | opOut (req : StockOutRequest)
  | opLock (req : StockLockRequest)
  | opUnlock (req : StockUnlockRequest)
  | opConsume (source_order_no : String)

/-- Run an operation, returning the committed state (or the business error,
in which case the committed state is unchanged) and the observable trace. -/
def runOp (db : DB) : Op → Except BizError DB × List Ev
  | .opIn req => let r := stock_in db req; (.ok r.1, r.2)
  | .opOut req => let r := stock_out db req; (r.1.map (fun x => x.1), r.2)
  | .opLock req => lock_stock db req
  | .opUnlock req => let r := unlock_stock db req; (r.1.map (fun x => x.1), r.2)
  | .opConsume s => let r := consume_locked_stock db s; (r.1.map (fun x => x.1), r.2)

/-- The committed database after an operation: the new state on success,
the old state when a business error aborted the transaction. -/
def commitOf (db : DB) (op : Op) : DB :=
  match (runOp db op).1 with
  | .ok db' => db'
  | .error _ => db

/-- Request validation performed by the pydantic schemas before the service
runs: positive quantities, non-negative unit cost, non-empty item lists. -/
def ValidOp : Op → Prop
  | .opIn req => req.items ≠ [] ∧ ∀ it ∈ req.items, 0 < it.qty ∧ 0 ≤ it.unit_cost
  | .opOut req => req.items ≠ [] ∧ ∀ it ∈ req.items, 0 < it.qty
  | .opLock req => req.items ≠ [] ∧ ∀ it ∈ req.items, 0 < it.qty
  | .opUnlock _ => True
  | .opConsume _ => True

/-- Database states reachable from the empty initial state by committed
(validated) operations; failed operations leave the state unchanged. -/
inductive Reachable : DB → Prop where
  | init : Reachable initDB
  | step (op : Op) (db : DB) : Reachable db → ValidOp op → Reachable (commitOf db op)

/-! ### Proof devices -/

/-- Fused form of the candidate walk: deplete directly along the full
detail table in storage order, touching exactly the candidate rows.  When
the table is sorted by `created_at` and primary keys are distinct this
coincides with sort-filter-walk-writeback (proved below); its structural
recursion over the table is what the invariant proofs induct on. -/
def directDeplete (sku : String) (wh : Int) (bf : Option String) (useLocked : Bool)
    (remaining : ℚ) : List StockDetail → List StockDetail × ℚ × ℚ
  | [] => ([], remaining, 0)
  | d :: ds =>
    if detailCandidate sku wh bf d && decide (0 < remaining) then
      ({ d with qty := d.qty - walkDeduct useLocked d remaining } ::
         (directDeplete sku wh bf useLocked (remaining - walkDeduct useLocked d remaining) ds).1,
       (directDeplete sku wh bf useLocked (remaining - walkDeduct useLocked d remaining) ds).2.1,
       walkDeduct useLocked d remaining * d.unit_cost +
         (directDeplete sku wh bf useLocked (remaining - walkDeduct useLocked d remaining) ds).2.2)
    else
      (d :: (directDeplete sku wh bf useLocked remaining ds).1,
       (directDeplete sku wh bf useLocked remaining ds).2.1,
       (directDeplete sku wh bf useLocked remaining ds).2.2)

/-- All fields of a detail row except the mutable `qty`. -/
def dKey (d : StockDetail) :
    Nat × Nat × String × Int × String × ℚ × ℚ × String × Option String :=
  (d.detail_id, d.created_at, d.sku_id, d.warehouse_id, d.batch_no,
   d.locked_qty, d.unit_cost, d.source_type, d.source_order_no)

/-- The unique key of a stock aggregate row. -/
def sKey (st : Stock) : String × Int := (st.sku_id, st.warehouse_id)

/-- All fields of a lock record except the mutable `status`. -/
def lKey (l : StockLock) : Nat × String × Int × ℚ × String × String :=
  (l.lock_no, l.sku_id, l.warehouse_id, l.locked_qty, l.source_type, l.source_order_no)

/-- Sum of `qty` over the depletion candidates of a key. -/
def availSum (details : List StockDetail) (sku : String) (wh : Int) (bf : Option String) : ℚ :=
  ((details.filter (detailCandidate sku wh bf)).map (fun d => d.qty)).sum

/-- Whether an aggregate row exists for a key. -/
def HasKey (db : DB) (sku : String) (wh : Int) : Prop :=
  ∃ st ∈ db.stocks, st.sku_id = sku ∧ st.warehouse_id = wh

/-- The invariant conjunction of the specification (§3/§8), per aggregate:
`available = on_hand - locked`, `on_hand ≥ 0`, `locked ≥ 0`,
`locked ≤ on_hand`, batch quantities sum to `on_hand`, `avg_cost ≥ 0`. -/
def Inv (db : DB) : Prop :=
  ∀ st ∈ db.stocks,
    st.available_qty = st.qty - st.locked_qty ∧ 0 ≤ st.qty ∧ 0 ≤ st.locked_qty ∧
    st.locked_qty ≤ st.qty ∧
    detailSum db.details st.sku_id st.warehouse_id = st.qty ∧ 0 ≤ st.avg_cost

/-- Strengthened inductive invariant carried through every operation. -/
structure InvFull (db : DB) : Prop where
  keysPW : db.stocks.Pairwise (fun a b => sKey a ≠ sKey b)
  stocksOk : ∀ st ∈ db.stocks,
    st.available_qty = st.qty - st.locked_qty ∧ 0 ≤ st.locked_qty ∧
    st.locked_qty ≤ st.qty ∧ 0 ≤ st.avg_cost ∧
    st.qty = detailSum db.details st.sku_id st.warehouse_id ∧
    st.locked_qty = lockSum db.locks st.sku_id st.warehouse_id
  detailsOk : ∀ d ∈ db.details, 0 ≤ d.qty ∧ d.locked_qty = 0 ∧ 0 ≤ d.unit_cost ∧
    d.detail_id < db.nextId ∧ d.created_at < db.nextId ∧
    HasKey db d.sku_id d.warehouse_id
  createdPW : db.details.Pairwise (fun a b => a.created_at < b.created_at)
  idsPW : db.details.Pairwise (fun a b => a.detail_id ≠ b.detail_id)
  locksOk : ∀ l ∈ db.locks, 0 < l.locked_qty ∧ l.lock_no < db.nextId ∧
    HasKey db l.sku_id l.warehouse_id
  lockNosPW : db.locks.Pairwise (fun a b => a.lock_no ≠ b.lock_no)

/-- The claim of §5 on a trace: every publish is preceded by the commit
(no publish occurs strictly before the commit event). -/
def noPublishBeforeCommit (tr : List Ev) : Bool :=
  (tr.takeWhile (fun e => !(e == Ev.commit))).all (fun e => !e.isPublish)

/-- Count of movement rows of one `(sku, warehouse)` key. -/
def moveCount (moves : List StockMove) (sku : String) (wh : Int) : Nat :=
  (moves.filter (fun m => m.sku_id == sku && m.warehouse_id == wh)).length

/-- Count of publish events of one `(sku, warehouse)` key in a trace. -/
def pubCount (tr : List Ev) (sku : String) (wh : Int) : Nat :=
  (tr.filter (fun e => match e with
    | .publish p => p.sku_id == sku && p.warehouse_id == wh
    | .commit => false)).length

/-! ### Concrete executions used by witnesses and counterexamples -/

/-- Receive 100 units of SKU `A` at unit cost 10 into warehouse 1. -/
def reqA100 : StockInRequest := ⟨1, "PURCHASE", "PO1", [⟨"A", 100, 10, none⟩]⟩

/-- Receive 50 more units of SKU `A` at unit cost 16. -/
def reqA50 : StockInRequest := ⟨1, "PURCHASE", "PO2", [⟨"A", 50, 16, none⟩]⟩

/-- A receive request listing the same `(sku, warehouse)` key twice. -/
def reqDup : StockInRequest := ⟨1, "PURCHASE", "PO3", [⟨"A", 1, 2, none⟩, ⟨"A", 3, 4, none⟩]⟩

/-- Lock 5 units of SKU `A` for order `O1`. -/
def reqLock5 : StockLockRequest := ⟨1, "ORDER", "O1", [⟨"A", 5⟩]⟩

/-- State after receiving 100 units of `A` at cost 10 into the empty store. -/
def dbA1 : DB := commitOf initDB (.opIn reqA100)

/-- State after the second receive (50 at cost 16). -/
def dbA2 : DB := commitOf dbA1 (.opIn reqA50)

/-- State after locking 5 units of `A` for order `O1` on top of `dbA1`. -/
def dbL : DB := commitOf dbA1 (.opLock reqLock5)

/-- State after consuming order `O1`'s locked stock on top of `dbL`. -/
def dbC : DB := commitOf dbL (.opConsume "O1")

/-- An issue request for more than the available quantity of `A`. -/
def reqOutBig : StockOutRequest := ⟨1, "SALE", "S9", [⟨"A", 200, none⟩]⟩

/-- An issue request naming batch `BN1` for more than that batch holds
(but less than the aggregate's available quantity). -/
def reqOutBatch : StockOutRequest := ⟨1, "SALE", "S2", [⟨"A", 60, some "BN1"⟩]⟩

/-- A second named-batch issue request exceeding batch `BN1`'s remainder. -/
def reqOutBatch70 : StockOutRequest := ⟨1, "SALE", "S3", [⟨"A", 70, some "BN1"⟩]⟩

/-- Unlock request by the single lock number created by `reqLock5`. -/
def reqUnlock1 : StockUnlockRequest := ⟨some [1], none⟩

/-! ### Literal forms of the concrete states (established by the evaluation
lemmas further below) -/

def dbA1c : DB :=
  ⟨[⟨"A", 1, 100, 0, 100, 10⟩],
   [⟨0, "A", 1, "BN0", 100, 0, 10, "PURCHASE", some "PO1", 0⟩],
   [⟨0, "A", 1, .IN, 100, 0, 100, 10, "PURCHASE", some "PO1", some "BN0"⟩],
   [], 1⟩

def dbA2c : DB :=
  ⟨[⟨"A", 1, 150, 0, 150, 12⟩],
   [⟨0, "A", 1, "BN0", 100, 0, 10, "PURCHASE", some "PO1", 0⟩,
    ⟨1, "A", 1, "BN1", 50, 0, 16, "PURCHASE", some "PO2", 1⟩],
   [⟨0, "A", 1, .IN, 100, 0, 100, 10, "PURCHASE", some "PO1", some "BN0"⟩,
    ⟨1, "A", 1, .IN, 50, 100, 150, 16, "PURCHASE", some "PO2", some "BN1"⟩],
   [], 2⟩

def dbLc : DB :=
  ⟨[⟨"A", 1, 100, 5, 95, 10⟩],
   [⟨0, "A", 1, "BN0", 100, 0, 10, "PURCHASE", some "PO1", 0⟩],
   [⟨0, "A", 1, .IN, 100, 0, 100, 10, "PURCHASE", some "PO1", some "BN0"⟩,
    ⟨1, "A", 1, .LOCK, 5, 0, 5, 0, "ORDER", some "O1", none⟩],
   [⟨1, "A", 1, 5, .LOCKED, "ORDER", "O1"⟩], 2⟩

def dbCc : DB :=
  ⟨[⟨"A", 1, 95, 0, 95, 10⟩],
   [⟨0, "A", 1, "BN0", 95, 0, 10, "PURCHASE", some "PO1", 0⟩],
   [⟨0, "A", 1, .IN, 100, 0, 100, 10, "PURCHASE", some "PO1", some "BN0"⟩,
    ⟨1, "A", 1, .LOCK, 5, 0, 5, 0, "ORDER", some "O1", none⟩,
    ⟨2, "A", 1, .OUT, 5, 100, 95, 10, "SALE", some "O1", none⟩],
   [⟨1, "A", 1, 5, .CONSUMED, "ORDER", "O1"⟩], 3⟩

def dbDupc : DB :=
  ⟨[⟨"A", 1, 4, 0, 4, 7/2⟩],
   [⟨0, "A", 1, "BN0", 1, 0, 2, "PURCHASE", some "PO3", 0⟩,
    ⟨1, "A", 1, "BN1", 3, 0, 4, "PURCHASE", some "PO3", 1⟩],
   [⟨0, "A", 1, .IN, 1, 0, 1, 2, "PURCHASE", some "PO3", some "BN0"⟩,
    ⟨1, "A", 1, .IN, 3, 1, 4, 4, "PURCHASE", some "PO3", some "BN1"⟩],
   [], 2⟩

def pubA100 : PubEvent := ⟨"A", 1, .IN, 100, 0, 100, "PURCHASE", some "PO1"⟩

/-! ### Query and update lemmas -/

theorem getStock_eq_some {db : DB} {sku : String} {wh : Int} {st : Stock}
    (h : getStock db sku wh = some st) :
    st ∈ db.stocks ∧ st.sku_id = sku ∧ st.warehouse_id = wh := by
  have hm := List.mem_of_find?_eq_some h
  have hp := List.find?_some h
  simp only [Bool.and_eq_true, beq_iff_eq] at hp
  exact ⟨hm, hp.1, hp.2⟩

theorem getStock_isSome_of_hasKey {db : DB} {sku : String} {wh : Int}
    (h : HasKey db sku wh) : (getStock db sku wh).isSome := by
  obtain ⟨st, hst, h1, h2⟩ := h
  rcases hf : getStock db sku wh with _ | st'
  · rw [getStock, List.find?_eq_none] at hf
    exact absurd (by simp [h1, h2]) (hf st hst)
  · simp

theorem hasKey_iff_mem_map {db : DB} {sku : String} {wh : Int} :
    HasKey db sku wh ↔ (sku, wh) ∈ db.stocks.map sKey := by
  constructor
  · rintro ⟨st, hst, h1, h2⟩
    exact List.mem_map.mpr ⟨st, hst, by simp [sKey, h1, h2]⟩
  · intro h
    obtain ⟨st, hst, hk⟩ := List.mem_map.mp h
    exact ⟨st, hst, congrArg Prod.fst hk, congrArg Prod.snd hk⟩

theorem setStock_map_sKey (db : DB) (st' : Stock) :
    (setStock db st').stocks.map sKey = db.stocks.map sKey := by
  simp only [setStock, List.map_map]
  refine List.map_congr_left (fun st _ => ?_)
  by_cases hc : (st.sku_id == st'.sku_id && st.warehouse_id == st'.warehouse_id) = true
  · simp only [Bool.and_eq_true, beq_iff_eq] at hc
    simp [Function.comp, hc.1, hc.2, sKey]
  · simp [Function.comp, hc]

theorem mem_setStock {db : DB} {st' y : Stock} (h : y ∈ (setStock db st').stocks) :
    y = st' ∨ (y ∈ db.stocks ∧ ¬(y.sku_id = st'.sku_id ∧ y.warehouse_id = st'.warehouse_id)) := by
  simp only [setStock, List.mem_map] at h
  obtain ⟨x, hx, hxy⟩ := h
  by_cases hc : (x.sku_id == st'.sku_id && x.warehouse_id == st'.warehouse_id) = true
  · rw [if_pos hc] at hxy; exact Or.inl hxy.symm
  · rw [if_neg hc] at hxy
    subst hxy
    simp only [Bool.and_eq_true, beq_iff_eq] at hc
    exact Or.inr ⟨hx, fun hk => hc ⟨hk.1, hk.2⟩⟩

theorem find?_map_replace {α : Type} (p : α → Bool) (b : α) (hb : p b = true) :
    ∀ l : List α,
      (l.map (fun x => if p x then b else x)).find? p = (l.find? p).map (fun _ => b)
  | [] => rfl
  | a :: t => by
    by_cases hc : p a = true
    · rw [List.map_cons, if_pos hc, List.find?_cons_of_pos _ hb, List.find?_cons_of_pos _ hc]
      rfl
    · rw [List.map_cons, if_neg hc, List.find?_cons_of_neg _ hc, List.find?_cons_of_neg _ hc,
        find?_map_replace p b hb t]

theorem getStock_setStock_self {db : DB} {st st' : Stock}
    (h : getStock db st'.sku_id st'.warehouse_id = some st) :
    getStock (setStock db st') st'.sku_id st'.warehouse_id = some st' := by
  have hkey := find?_map_replace
    (fun st : Stock => st.sku_id == st'.sku_id && st.warehouse_id == st'.warehouse_id)
    st' (by simp) db.stocks
  simp only [getStock, setStock] at h ⊢
  rw [hkey, h]
  rfl

theorem getStock_append_new {db : DB} {sku : String} {wh : Int} (st : Stock)
    (h : getStock db sku wh = none) :
    getStock { db with stocks := db.stocks ++ [st] } sku wh =
      if (st.sku_id == sku && st.warehouse_id == wh) = true then some st else none := by
  simp only [getStock] at h ⊢
  rw [List.find?_append, h]
  by_cases hc : (st.sku_id == sku && st.warehouse_id == wh) = true
  · simp [List.find?_cons, hc]
  · simp [List.find?_cons, hc]

theorem detailSum_append (ds : List StockDetail) (d : StockDetail) (sku : String) (wh : Int) :
    detailSum (ds ++ [d]) sku wh = detailSum ds sku wh +
      (if d.sku_id = sku ∧ d.warehouse_id = wh then d.qty else 0) := by
  by_cases hc : d.sku_id = sku ∧ d.warehouse_id = wh
  · simp [detailSum, List.filter_append, hc]
  · have hb : (d.sku_id == sku && d.warehouse_id == wh) = false := by
      rcases not_and_or.mp hc with h | h <;> simp [h]
    simp [detailSum, List.filter_append, hb, hc]

theorem lockSum_append (ls : List StockLock) (l : StockLock) (sku : String) (wh : Int) :
    lockSum (ls ++ [l]) sku wh = lockSum ls sku wh +
      (if l.sku_id = sku ∧ l.warehouse_id = wh ∧ l.status = LockStatus.LOCKED
       then l.locked_qty else 0) := by
  by_cases hc : l.sku_id = sku ∧ l.warehouse_id = wh ∧ l.status = LockStatus.LOCKED
  · simp [lockSum, List.filter_append, hc, hc.1, hc.2.1, hc.2.2]
  · have hb : (l.sku_id == sku && l.warehouse_id == wh &&
        decide (l.status = LockStatus.LOCKED)) = false := by
      rcases not_and_or.mp hc with h | h
      · simp [h]
      rcases not_and_or.mp h with h' | h' <;> simp [h']
    simp [lockSum, List.filter_append, hb, hc]

theorem lockSum_cons (a : StockLock) (t : List StockLock) (sku : String) (wh : Int) :
    lockSum (a :: t) sku wh =
      (if a.sku_id = sku ∧ a.warehouse_id = wh ∧ a.status = LockStatus.LOCKED
       then a.locked_qty else 0) + lockSum t sku wh := by
  by_cases hc : a.sku_id = sku ∧ a.warehouse_id = wh ∧ a.status = LockStatus.LOCKED
  · simp [lockSum, List.filter_cons, hc.1, hc.2.1, hc.2.2, hc]
  · have hb : (a.sku_id == sku && a.warehouse_id == wh &&
        decide (a.status = LockStatus.LOCKED)) = false := by
      rcases not_and_or.mp hc with h | h
      · simp [h]
      · rcases not_and_or.mp h with h' | h' <;> simp [h']
    simp [lockSum, List.filter_cons, hb, hc]

theorem detailSum_cons (a : StockDetail) (t : List StockDetail) (sku : String) (wh : Int) :
    detailSum (a :: t) sku wh =
      (if a.sku_id = sku ∧ a.warehouse_id = wh then a.qty else 0) + detailSum t sku wh := by
  by_cases hc : a.sku_id = sku ∧ a.warehouse_id = wh
  · simp [detailSum, List.filter_cons, hc.1, hc.2, hc]
  · have hb : (a.sku_id == sku && a.warehouse_id == wh) = false := by
      rcases not_and_or.mp hc with h | h <;> simp [h]
    simp [detailSum, List.filter_cons, hb, hc]

theorem setLockStatus_eq_of_forall_ne {ls : List StockLock} {n : Nat} {s : LockStatus}
    (h : ∀ x ∈ ls, x.lock_no ≠ n) : setLockStatus ls n s = ls := by
  induction ls with
  | nil => rfl
  | cons a t ih =>
    have ha : ¬((a.lock_no == n) = true) := by
      simpa using h a (List.mem_cons_self a t)
    have ht := ih (fun x hx => h x (List.mem_cons_of_mem a hx))
    have hstep : setLockStatus (a :: t) n s =
        (if (a.lock_no == n) = true then { a with status := s } else a) ::
          setLockStatus t n s := rfl
    rw [hstep, if_neg ha, ht]

theorem mem_setLockStatus_of_ne {ls : List StockLock} {n : Nat} {s : LockStatus}
    {x : StockLock} (hx : x ∈ ls) (hne : x.lock_no ≠ n) :
    x ∈ setLockStatus ls n s := by
  have := List.mem_map_of_mem
    (fun l => if l.lock_no == n then { l with status := s } else l) hx
  simpa [setLockStatus, hne] using this

theorem setLockStatus_map_lKey (ls : List StockLock) (n : Nat) (s : LockStatus) :
    (setLockStatus ls n s).map lKey = ls.map lKey := by
  simp only [setLockStatus, List.map_map]
  refine List.map_congr_left (fun l _ => ?_)
  by_cases hc : (l.lock_no == n) = true
  · simp [Function.comp, hc, lKey]
  · simp [Function.comp, hc]

theorem lockSum_setLockStatus {ls : List StockLock} {l : StockLock} {s' : LockStatus}
    (hpw : ls.Pairwise (fun a b => a.lock_no ≠ b.lock_no)) (hl : l ∈ ls)
    (hs : l.status = LockStatus.LOCKED) (hs' : s' ≠ LockStatus.LOCKED)
    (sku : String) (wh : Int) :
    lockSum (setLockStatus ls l.lock_no s') sku wh = lockSum ls sku wh -
      (if l.sku_id = sku ∧ l.warehouse_id = wh then l.locked_qty else 0) := by
  induction ls with
  | nil => cases hl
  | cons a rest ih =>
    rw [List.pairwise_cons] at hpw
    rcases List.mem_cons.mp hl with rfl | hmem
    · have hrest : setLockStatus rest l.lock_no s' = rest :=
        setLockStatus_eq_of_forall_ne (fun x hx => (hpw.1 x hx).symm)
      have hstep : setLockStatus (l :: rest) l.lock_no s' =
          (if (l.lock_no == l.lock_no) = true then { l with status := s' } else l) ::
            setLockStatus rest l.lock_no s' := rfl
      rw [hstep, if_pos (by simp), hrest, lockSum_cons, lockSum_cons]
      by_cases hc : l.sku_id = sku ∧ l.warehouse_id = wh
      · rw [if_pos hc,
          if_neg (fun hk => hs' hk.2.2),
          if_pos (show l.sku_id = sku ∧ l.warehouse_id = wh ∧ l.status = LockStatus.LOCKED
            from ⟨hc.1, hc.2, hs⟩)]
        ring
      · rw [if_neg hc,
          if_neg (fun hk => hc ⟨hk.1, hk.2.1⟩),
          if_neg (fun hk => hc ⟨hk.1, hk.2.1⟩)]
        ring
    · have ih' := ih hpw.2 hmem
      have hane : ¬((a.lock_no == l.lock_no) = true) := by
        simpa using hpw.1 l hmem
      have hstep : setLockStatus (a :: rest) l.lock_no s' =
          (if (a.lock_no == l.lock_no) = true then { a with status := s' } else a) ::
            setLockStatus rest l.lock_no s' := rfl
      rw [hstep, if_neg hane, lockSum_cons, lockSum_cons, ih']
      ring

theorem le_lockSum_of_mem {ls : List StockLock} {l : StockLock}
    (hpos : ∀ x ∈ ls, 0 < x.locked_qty) (hl : l ∈ ls)
    (hs : l.status = LockStatus.LOCKED) :
    l.locked_qty ≤ lockSum ls l.sku_id l.warehouse_id := by
  have hmem : l ∈ ls.filter (fun x => x.sku_id == l.sku_id && x.warehouse_id == l.warehouse_id
      && decide (x.status = LockStatus.LOCKED)) :=
    List.mem_filter.mpr ⟨hl, by simp [hs]⟩
  refine List.single_le_sum (fun q hq => ?_) _ (List.mem_map_of_mem _ hmem)
  obtain ⟨x, hx, rfl⟩ := List.mem_map.mp hq
  exact le_of_lt (hpos x (List.mem_of_mem_filter hx))

/-! ### Lemmas on the candidate walk -/

theorem detailCandidate_spec {sku : String} {wh : Int} {bf : Option String} {d : StockDetail}
    (h : detailCandidate sku wh bf d = true) :
    d.sku_id = sku ∧ d.warehouse_id = wh ∧ 0 < d.qty := by
  simp only [detailCandidate, Bool.and_eq_true, beq_iff_eq, decide_eq_true_eq] at h
  exact ⟨h.1.1.1, h.1.1.2, h.1.2⟩

theorem availSum_cons (d : StockDetail) (ds : List StockDetail) (sku : String) (wh : Int)
    (bf : Option String) :
    availSum (d :: ds) sku wh bf =
      (if detailCandidate sku wh bf d = true then d.qty else 0) + availSum ds sku wh bf := by
  by_cases hc : detailCandidate sku wh bf d = true
  · simp [availSum, List.filter_cons, hc]
  · simp [availSum, List.filter_cons, hc]

theorem availSum_nonneg {ds : List StockDetail} (sku : String) (wh : Int) (bf : Option String) :
    0 ≤ availSum ds sku wh bf := by
  refine List.sum_nonneg (fun q hq => ?_)
  obtain ⟨x, hx, rfl⟩ := List.mem_map.mp hq
  exact le_of_lt (detailCandidate_spec (List.of_mem_filter hx)).2.2


theorem walkDeduct_le_rem (u : Bool) (d : StockDetail) (r : ℚ) : walkDeduct u d r ≤ r :=
  min_le_right _ _

theorem walkDeduct_avail_eq {u : Bool} {d : StockDetail}
    (hlk : u = true → d.locked_qty = 0) (r : ℚ) :
    walkDeduct u d r = min d.qty r := by
  cases u
  · simp [walkDeduct]
  · simp [walkDeduct, hlk rfl]

theorem walkDeduct_nonneg {u : Bool} {d : StockDetail} {r : ℚ}
    (hr : 0 ≤ r) (hq : 0 < d.qty) (hlk : u = true → d.locked_qty = 0) :
    0 ≤ walkDeduct u d r := by
  rw [walkDeduct_avail_eq hlk]
  exact le_min (le_of_lt hq) hr

theorem walkDeduct_le_qty {u : Bool} {d : StockDetail} {r : ℚ}
    (hlk : u = true → d.locked_qty = 0) : walkDeduct u d r ≤ d.qty := by
  rw [walkDeduct_avail_eq hlk]
  exact min_le_left _ _

theorem directDeplete_cons_pos {sku : String} {wh : Int} {bf : Option String} {u : Bool}
    {r : ℚ} {d : StockDetail} (ds : List StockDetail)
    (hc : (detailCandidate sku wh bf d && decide (0 < r)) = true) :
    directDeplete sku wh bf u r (d :: ds) =
      ({ d with qty := d.qty - walkDeduct u d r } ::
         (directDeplete sku wh bf u (r - walkDeduct u d r) ds).1,
       (directDeplete sku wh bf u (r - walkDeduct u d r) ds).2.1,
       walkDeduct u d r * d.unit_cost +
         (directDeplete sku wh bf u (r - walkDeduct u d r) ds).2.2) := by
  rw [directDeplete, if_pos hc]

theorem directDeplete_cons_neg {sku : String} {wh : Int} {bf : Option String} {u : Bool}
    {r : ℚ} {d : StockDetail} (ds : List StockDetail)
    (hc : ¬(detailCandidate sku wh bf d && decide (0 < r)) = true) :
    directDeplete sku wh bf u r (d :: ds) =
      (d :: (directDeplete sku wh bf u r ds).1,
       (directDeplete sku wh bf u r ds).2.1,
       (directDeplete sku wh bf u r ds).2.2) := by
  rw [directDeplete, if_neg hc]

theorem directDeplete_map_dKey (sku : String) (wh : Int) (bf : Option String) (u : Bool) :
    ∀ (r : ℚ) (ds : List StockDetail),
      ((directDeplete sku wh bf u r ds).1).map dKey = ds.map dKey
  | _, [] => rfl
  | r, d :: ds => by
    by_cases hc : (detailCandidate sku wh bf d && decide (0 < r)) = true
    · rw [directDeplete_cons_pos ds hc]
      simp only [List.map_cons, directDeplete_map_dKey sku wh bf u _ ds]
      rfl
    · rw [directDeplete_cons_neg ds hc]
      simp only [List.map_cons, directDeplete_map_dKey sku wh bf u r ds]

theorem directDeplete_noop (sku : String) (wh : Int) (bf : Option String) (u : Bool)
    {r : ℚ} (hr : ¬0 < r) :
    ∀ ds : List StockDetail, directDeplete sku wh bf u r ds = (ds, r, 0)
  | [] => rfl
  | d :: ds => by
    have hc : ¬(detailCandidate sku wh bf d && decide (0 < r)) = true := by
      simp [hr]
    rw [directDeplete_cons_neg ds hc, directDeplete_noop sku wh bf u hr ds]

theorem directDeplete_rem_bounds (sku : String) (wh : Int) (bf : Option String) (u : Bool) :
    ∀ (r : ℚ) (ds : List StockDetail), 0 ≤ r →
      (∀ d ∈ ds, u = true → d.locked_qty = 0) →
      0 ≤ (directDeplete sku wh bf u r ds).2.1 ∧ (directDeplete sku wh bf u r ds).2.1 ≤ r
  | r, [], hr, _ => ⟨hr, le_refl _⟩
  | r, d :: ds, hr, hlk => by
    by_cases hc : (detailCandidate sku wh bf d && decide (0 < r)) = true
    · rw [directDeplete_cons_pos ds hc]
      have hc' : detailCandidate sku wh bf d = true := by
        simp only [Bool.and_eq_true] at hc
        exact hc.1
      have hq := (detailCandidate_spec hc').2.2
      have hded0 : 0 ≤ walkDeduct u d r :=
        walkDeduct_nonneg hr hq (hlk d (List.mem_cons_self d ds))
      have hdedr : walkDeduct u d r ≤ r := walkDeduct_le_rem u d r
      have hrec := directDeplete_rem_bounds sku wh bf u (r - walkDeduct u d r) ds
        (by linarith) (fun x hx => hlk x (List.mem_cons_of_mem d hx))
      exact ⟨hrec.1, by linarith [hrec.2]⟩
    · rw [directDeplete_cons_neg ds hc]
      exact directDeplete_rem_bounds sku wh bf u r ds hr
        (fun x hx => hlk x (List.mem_cons_of_mem d hx))

theorem directDeplete_qty_nonneg (sku : String) (wh : Int) (bf : Option String) (u : Bool) :
    ∀ (r : ℚ) (ds : List StockDetail),
      (∀ d ∈ ds, 0 ≤ d.qty ∧ (u = true → d.locked_qty = 0)) →
      ∀ d' ∈ (directDeplete sku wh bf u r ds).1, 0 ≤ d'.qty
  | _, [], _ => by
    intro d' h
    cases h
  | r, d :: ds, hds => by
    intro d' hd'
    by_cases hc : (detailCandidate sku wh bf d && decide (0 < r)) = true
    · rw [directDeplete_cons_pos ds hc] at hd'
      rcases List.mem_cons.mp hd' with rfl | hmem
      · have hded : walkDeduct u d r ≤ d.qty :=
          walkDeduct_le_qty ((hds d (List.mem_cons_self d ds)).2)
        exact sub_nonneg.mpr hded
      · exact directDeplete_qty_nonneg sku wh bf u _ ds
          (fun x hx => hds x (List.mem_cons_of_mem d hx)) d' hmem
    · rw [directDeplete_cons_neg ds hc] at hd'
      rcases List.mem_cons.mp hd' with rfl | hmem
      · exact (hds d' (List.mem_cons_self d' ds)).1
      · exact directDeplete_qty_nonneg sku wh bf u r ds
          (fun x hx => hds x (List.mem_cons_of_mem d hx)) d' hmem

theorem directDeplete_detailSum (sku : String) (wh : Int) (bf : Option String) (u : Bool) :
    ∀ (r : ℚ) (ds : List StockDetail),
      detailSum (directDeplete sku wh bf u r ds).1 sku wh =
        detailSum ds sku wh - (r - (directDeplete sku wh bf u r ds).2.1)
  | r, [] => by
    simp [directDeplete, detailSum]
  | r, d :: ds => by
    by_cases hc : (detailCandidate sku wh bf d && decide (0 < r)) = true
    · rw [directDeplete_cons_pos ds hc]
      have hc' : detailCandidate sku wh bf d = true := by
        simp only [Bool.and_eq_true] at hc
        exact hc.1
      obtain ⟨h1, h2, _⟩ := detailCandidate_spec hc'
      have hrec := directDeplete_detailSum sku wh bf u (r - walkDeduct u d r) ds
      simp only [detailSum_cons]
      rw [if_pos (show ({ d with qty := d.qty - walkDeduct u d r } : StockDetail).sku_id = sku ∧
            ({ d with qty := d.qty - walkDeduct u d r } : StockDetail).warehouse_id = wh
          from ⟨h1, h2⟩),
        if_pos (show d.sku_id = sku ∧ d.warehouse_id = wh from ⟨h1, h2⟩), hrec]
      ring
    · rw [directDeplete_cons_neg ds hc]
      have hrec := directDeplete_detailSum sku wh bf u r ds
      simp only [detailSum_cons]
      rw [hrec]
      ring

theorem directDeplete_detailSum_other (sku : String) (wh : Int) (bf : Option String) (u : Bool)
    {sku' : String} {wh' : Int} (hne : ¬(sku' = sku ∧ wh' = wh)) :
    ∀ (r : ℚ) (ds : List StockDetail),
      detailSum (directDeplete sku wh bf u r ds).1 sku' wh' = detailSum ds sku' wh'
  | r, [] => rfl
  | r, d :: ds => by
    by_cases hc : (detailCandidate sku wh bf d && decide (0 < r)) = true
    · rw [directDeplete_cons_pos ds hc]
      have hc' : detailCandidate sku wh bf d = true := by
        simp only [Bool.and_eq_true] at hc
        exact hc.1
      obtain ⟨h1, h2, _⟩ := detailCandidate_spec hc'
      have hno : ¬(d.sku_id = sku' ∧ d.warehouse_id = wh') := by
        rintro ⟨ha, hb⟩
        exact hne ⟨by rw [← ha, h1], by rw [← hb, h2]⟩
      simp only [detailSum_cons]
      rw [if_neg (show ¬(({ d with qty := d.qty - walkDeduct u d r } : StockDetail).sku_id = sku' ∧
            ({ d with qty := d.qty - walkDeduct u d r } : StockDetail).warehouse_id = wh')
          from hno),
        if_neg hno, directDeplete_detailSum_other sku wh bf u hne _ ds]
    · rw [directDeplete_cons_neg ds hc]
      simp only [detailSum_cons]
      rw [directDeplete_detailSum_other sku wh bf u hne r ds]

theorem directDeplete_rem_zero (sku : String) (wh : Int) (bf : Option String) (u : Bool) :
    ∀ (r : ℚ) (ds : List StockDetail), 0 ≤ r → r ≤ availSum ds sku wh bf →
      (∀ d ∈ ds, u = true → d.locked_qty = 0) →
      (directDeplete sku wh bf u r ds).2.1 = 0
  | r, [], hr, hle, _ => by
    have h0 : availSum ([] : List StockDetail) sku wh bf = 0 := rfl
    rw [h0] at hle
    have : r = 0 := le_antisymm hle hr
    simp [directDeplete, this]
  | r, d :: ds, hr, hle, hlk => by
    have htail : ∀ x ∈ ds, u = true → x.locked_qty = 0 :=
      fun x hx => hlk x (List.mem_cons_of_mem d hx)
    by_cases hc : (detailCandidate sku wh bf d && decide (0 < r)) = true
    · rw [directDeplete_cons_pos ds hc]
      have hc' : detailCandidate sku wh bf d = true := by
        simp only [Bool.and_eq_true] at hc
        exact hc.1
      rw [availSum_cons, if_pos hc'] at hle
      have havail := walkDeduct_avail_eq (hlk d (List.mem_cons_self d ds)) r
      rcases le_or_lt d.qty r with hqr | hqr
      · have hmin : walkDeduct u d r = d.qty := by
          rw [havail]
          exact min_eq_left hqr
        rw [hmin]
        exact directDeplete_rem_zero sku wh bf u (r - d.qty) ds
          (by linarith) (by linarith) htail
      · have hmin : walkDeduct u d r = r := by
          rw [havail]
          exact min_eq_right (le_of_lt hqr)
        rw [hmin]
        have h0 : (0 : ℚ) ≤ availSum ds sku wh bf := availSum_nonneg sku wh bf
        exact directDeplete_rem_zero sku wh bf u (r - r) ds
          (by linarith) (by linarith) htail
    · rw [directDeplete_cons_neg ds hc]
      rw [Bool.and_eq_true] at hc
      rcases not_and_or.mp hc with hnc | hnr
      · rw [availSum_cons, if_neg (by simpa using hnc)] at hle
        exact directDeplete_rem_zero sku wh bf u r ds hr (by linarith) htail
      · have hr0 : r = 0 := by
          have : ¬0 < r := by simpa using hnr
          linarith
        subst hr0
        rw [directDeplete_noop sku wh bf u (by norm_num) ds]

theorem directDeplete_rem_ge (sku : String) (wh : Int) (bf : Option String) (u : Bool) :
    ∀ (r : ℚ) (ds : List StockDetail),
      (∀ d ∈ ds, u = true → d.locked_qty = 0) →
      r - availSum ds sku wh bf ≤ (directDeplete sku wh bf u r ds).2.1
  | r, [], _ => by
    have h0 : availSum ([] : List StockDetail) sku wh bf = 0 := rfl
    simp [directDeplete, h0]
  | r, d :: ds, hlk => by
    have htail : ∀ x ∈ ds, u = true → x.locked_qty = 0 :=
      fun x hx => hlk x (List.mem_cons_of_mem d hx)
    rw [availSum_cons]
    by_cases hc : (detailCandidate sku wh bf d && decide (0 < r)) = true
    · rw [directDeplete_cons_pos ds hc]
      have hc' : detailCandidate sku wh bf d = true := by
        simp only [Bool.and_eq_true] at hc
        exact hc.1
      rw [if_pos hc']
      have hded : walkDeduct u d r ≤ d.qty :=
        walkDeduct_le_qty (hlk d (List.mem_cons_self d ds))
      have hrec := directDeplete_rem_ge sku wh bf u (r - walkDeduct u d r) ds htail
      linarith
    · rw [directDeplete_cons_neg ds hc]
      have hrec := directDeplete_rem_ge sku wh bf u r ds htail
      by_cases hcd : detailCandidate sku wh bf d = true
      · rw [if_pos hcd]
        have := (detailCandidate_spec hcd).2.2
        linarith
      · rw [if_neg hcd]
        linarith

/-! ### Equivalence of walk-then-write-back with the fused walk -/

theorem depleteWalk_cons_pos {u : Bool} {r : ℚ} {d : StockDetail} (ds : List StockDetail)
    (hr : 0 < r) :
    depleteWalk u r (d :: ds) =
      ({ d with qty := d.qty - walkDeduct u d r } ::
         (depleteWalk u (r - walkDeduct u d r) ds).1,
       (depleteWalk u (r - walkDeduct u d r) ds).2.1,
       walkDeduct u d r * d.unit_cost + (depleteWalk u (r - walkDeduct u d r) ds).2.2) := by
  rw [depleteWalk, if_pos hr]

theorem depleteWalk_cons_neg {u : Bool} {r : ℚ} {d : StockDetail} (ds : List StockDetail)
    (hr : ¬0 < r) :
    depleteWalk u r (d :: ds) = (d :: ds, r, 0) := by
  rw [depleteWalk, if_neg hr]

theorem depleteWalk_map_id (u : Bool) :
    ∀ (r : ℚ) (cs : List StockDetail),
      ((depleteWalk u r cs).1).map (fun d => d.detail_id) = cs.map (fun d => d.detail_id)
  | _, [] => rfl
  | r, d :: cs => by
    by_cases hr : 0 < r
    · rw [depleteWalk_cons_pos cs hr]
      simp only [List.map_cons, depleteWalk_map_id u _ cs]
    · rw [depleteWalk_cons_neg cs hr]

theorem find?_id_eq_none {us : List StockDetail} {n : Nat}
    (h : n ∉ us.map (fun d => d.detail_id)) :
    us.find? (fun u => u.detail_id == n) = none := by
  rw [List.find?_eq_none]
  intro u hu hbeq
  rw [beq_iff_eq] at hbeq
  exact h (hbeq ▸ List.mem_map_of_mem (fun d => d.detail_id) hu)

theorem writeBack_head_some {d : StockDetail} {us : List StockDetail} {u0 : StockDetail}
    (ds : List StockDetail) (h : us.find? (fun u => u.detail_id == d.detail_id) = some u0) :
    writeBackDetails (d :: ds) us = u0 :: writeBackDetails ds us := by
  simp only [writeBackDetails, List.map_cons, h]

theorem writeBack_head_none {d : StockDetail} {us : List StockDetail}
    (ds : List StockDetail) (h : us.find? (fun u => u.detail_id == d.detail_id) = none) :
    writeBackDetails (d :: ds) us = d :: writeBackDetails ds us := by
  simp only [writeBackDetails, List.map_cons, h]

theorem writeBack_skip {t us : List StockDetail} (u0 : StockDetail)
    (h : ∀ x ∈ t, x.detail_id ≠ u0.detail_id) :
    writeBackDetails t (u0 :: us) = writeBackDetails t us := by
  simp only [writeBackDetails]
  refine List.map_congr_left (fun x hx => ?_)
  rw [List.find?_cons_of_neg _ (by simpa using (h x hx).symm)]

theorem mem_id_inj {t : List StockDetail}
    (hpw : t.Pairwise (fun a b => a.detail_id ≠ b.detail_id)) {u x : StockDetail}
    (hu : u ∈ t) (hx : x ∈ t) (hid : u.detail_id = x.detail_id) : u = x := by
  induction t with
  | nil => cases hu
  | cons a s ih =>
    rw [List.pairwise_cons] at hpw
    rcases List.mem_cons.mp hu with rfl | hu'
    · rcases List.mem_cons.mp hx with rfl | hx'
      · rfl
      · exact absurd hid (hpw.1 x hx')
    · rcases List.mem_cons.mp hx with rfl | hx'
      · exact absurd hid.symm (hpw.1 u hu')
      · exact ih hpw.2 hu' hx'

theorem writeBack_self {t us : List StockDetail} (hsub : ∀ u ∈ us, u ∈ t)
    (hpw : t.Pairwise (fun a b => a.detail_id ≠ b.detail_id)) :
    writeBackDetails t us = t := by
  have : ∀ x ∈ t, (match us.find? (fun u => u.detail_id == x.detail_id) with
      | some u => u
      | none => x) = x := by
    intro x hx
    rcases hf : us.find? (fun u => u.detail_id == x.detail_id) with _ | u
    · simp only [hf]
    · have hu := List.mem_of_find?_eq_some hf
      have hid : u.detail_id = x.detail_id := by
        simpa using List.find?_some hf
      simp only [hf]
      exact mem_id_inj hpw (hsub u hu) hx hid
  calc writeBackDetails t us = t.map id := List.map_congr_left (fun x hx => this x hx)
    _ = t := List.map_id t

theorem walk_writeBack_eq_direct (sku : String) (wh : Int) (bf : Option String) (u : Bool) :
    ∀ (r : ℚ) (ds : List StockDetail),
      ds.Pairwise (fun a b => a.detail_id ≠ b.detail_id) →
      writeBackDetails ds (depleteWalk u r (ds.filter (detailCandidate sku wh bf))).1 =
          (directDeplete sku wh bf u r ds).1 ∧
        (depleteWalk u r (ds.filter (detailCandidate sku wh bf))).2 =
          (directDeplete sku wh bf u r ds).2
  | r, [], _ => ⟨rfl, rfl⟩
  | r, d :: t, hpw => by
    rw [List.pairwise_cons] at hpw
    by_cases hcd : detailCandidate sku wh bf d = true
    · rw [List.filter_cons_of_pos hcd]
      by_cases hr : 0 < r
      · have hc : (detailCandidate sku wh bf d && decide (0 < r)) = true := by
          simp [hcd, hr]
        have hfind : ({ d with qty := d.qty - walkDeduct u d r } ::
            (depleteWalk u (r - walkDeduct u d r) (t.filter (detailCandidate sku wh bf))).1).find?
              (fun x => x.detail_id == d.detail_id) =
            some { d with qty := d.qty - walkDeduct u d r } :=
          List.find?_cons_of_pos _ (by simp)
        have ih := walk_writeBack_eq_direct sku wh bf u (r - walkDeduct u d r) t hpw.2
        constructor
        · rw [depleteWalk_cons_pos _ hr, directDeplete_cons_pos t hc]
          simp only []
          rw [writeBack_head_some t hfind,
            writeBack_skip { d with qty := d.qty - walkDeduct u d r }
              (fun x hx hid => hpw.1 x hx hid.symm), ih.1]
        · rw [depleteWalk_cons_pos _ hr, directDeplete_cons_pos t hc]
          simp only []
          rw [ih.2]
      · have hc : ¬(detailCandidate sku wh bf d && decide (0 < r)) = true := by
          simp [hr]
        have hfind : (d :: t.filter (detailCandidate sku wh bf)).find?
            (fun x => x.detail_id == d.detail_id) = some d :=
          List.find?_cons_of_pos _ (by simp)
        constructor
        · rw [depleteWalk_cons_neg _ hr, directDeplete_cons_neg t hc,
            directDeplete_noop sku wh bf u hr t]
          simp only []
          rw [writeBack_head_some t hfind,
            writeBack_skip d (fun x hx hid => hpw.1 x hx hid.symm),
            writeBack_self (fun x hx => List.mem_of_mem_filter hx) hpw.2]
        · rw [depleteWalk_cons_neg _ hr, directDeplete_cons_neg t hc,
            directDeplete_noop sku wh bf u hr t]
    · rw [List.filter_cons_of_neg hcd]
      have hc : ¬(detailCandidate sku wh bf d && decide (0 < r)) = true := by
        simp [hcd]
      rw [directDeplete_cons_neg t hc]
      simp only []
      have ih := walk_writeBack_eq_direct sku wh bf u r t hpw.2
      have hnotin : d.detail_id ∉
          ((depleteWalk u r (t.filter (detailCandidate sku wh bf))).1).map
            (fun x => x.detail_id) := by
        rw [depleteWalk_map_id]
        intro hmem
        obtain ⟨x, hx, hid⟩ := List.mem_map.mp hmem
        exact hpw.1 x (List.mem_of_mem_filter hx) hid.symm
      refine ⟨?_, ih.2⟩
      rw [writeBack_head_none t (find?_id_eq_none hnotin), ih.1]

/-- Under the sortedness invariant, `_get_available_details` is the plain
filter of the detail table (which is already in `created_at` order). -/
theorem getAvailableDetails_eq_filter {db : DB}
    (h : db.details.Pairwise (fun a b => a.created_at < b.created_at))
    (sku : String) (wh : Int) (bf : Option String) :
    getAvailableDetails db sku wh bf = db.details.filter (detailCandidate sku wh bf) := by
  have hs : List.Sorted createdLE (db.details.filter (detailCandidate sku wh bf)) := by
    have hsub := List.Pairwise.filter (R := fun a b : StockDetail =>
      a.created_at < b.created_at) (detailCandidate sku wh bf) h
    exact hsub.imp (fun hab => le_of_lt hab)
  exact hs.insertionSort_eq


/-! ### Generic transfer lemmas for the invariant -/

theorem pairwise_map_transfer {α β : Type} {f : α → β} {R : β → β → Prop} {l l' : List α}
    (h : l'.map f = l.map f) (hp : l.Pairwise (fun a b => R (f a) (f b))) :
    l'.Pairwise (fun a b => R (f a) (f b)) := by
  have h2 : (l.map f).Pairwise R := List.pairwise_map.mpr hp
  rw [← h] at h2
  exact List.pairwise_map.mp h2

theorem pairwise_append_singleton {α : Type} {R : α → α → Prop} {l : List α} {x : α}
    (hp : l.Pairwise R) (hx : ∀ a ∈ l, R a x) : (l ++ [x]).Pairwise R := by
  rw [List.pairwise_append]
  exact ⟨hp, List.pairwise_singleton R x, fun a ha b hb => by
    rw [List.mem_singleton] at hb
    subst hb
    exact hx a ha⟩

theorem dKey_fields {a b : StockDetail} (h : dKey a = dKey b) :
    a.detail_id = b.detail_id ∧ a.created_at = b.created_at ∧ a.sku_id = b.sku_id ∧
    a.warehouse_id = b.warehouse_id ∧ a.locked_qty = b.locked_qty ∧
    a.unit_cost = b.unit_cost := by
  simp only [dKey, Prod.mk.injEq] at h
  exact ⟨h.1, h.2.1, h.2.2.1, h.2.2.2.1, h.2.2.2.2.2.1, h.2.2.2.2.2.2.1⟩

theorem directDeplete_mem_key {sku : String} {wh : Int} {bf : Option String} {u : Bool}
    {r : ℚ} {ds : List StockDetail} {d' : StockDetail}
    (h : d' ∈ (directDeplete sku wh bf u r ds).1) :
    ∃ d ∈ ds, dKey d = dKey d' := by
  have hm : dKey d' ∈ ((directDeplete sku wh bf u r ds).1).map dKey :=
    List.mem_map_of_mem dKey h
  rw [directDeplete_map_dKey] at hm
  obtain ⟨d, hd, hkey⟩ := List.mem_map.mp hm
  exact ⟨d, hd, hkey⟩

theorem directDeplete_map_created (sku : String) (wh : Int) (bf : Option String) (u : Bool)
    (r : ℚ) (ds : List StockDetail) :
    ((directDeplete sku wh bf u r ds).1).map (fun d => d.created_at) =
      ds.map (fun d => d.created_at) := by
  have h := congrArg (List.map (fun t : Nat × Nat × String × Int × String × ℚ × ℚ ×
    String × Option String => t.2.1)) (directDeplete_map_dKey sku wh bf u r ds)
  simpa [List.map_map, Function.comp, dKey] using h

theorem directDeplete_map_ids (sku : String) (wh : Int) (bf : Option String) (u : Bool)
    (r : ℚ) (ds : List StockDetail) :
    ((directDeplete sku wh bf u r ds).1).map (fun d => d.detail_id) =
      ds.map (fun d => d.detail_id) := by
  have h := congrArg (List.map (fun t : Nat × Nat × String × Int × String × ℚ × ℚ ×
    String × Option String => t.1)) (directDeplete_map_dKey sku wh bf u r ds)
  simpa [List.map_map, Function.comp, dKey] using h

theorem detailSum_eq_zero_of_no_key {ds : List StockDetail} {sku : String} {wh : Int}
    (h : ∀ d ∈ ds, ¬(d.sku_id = sku ∧ d.warehouse_id = wh)) :
    detailSum ds sku wh = 0 := by
  have hf : ds.filter (fun d => d.sku_id == sku && d.warehouse_id == wh) = [] := by
    rw [List.filter_eq_nil]
    intro d hd
    simpa using h d hd
  rw [detailSum, hf]
  rfl

theorem lockSum_eq_zero_of_no_key {ls : List StockLock} {sku : String} {wh : Int}
    (h : ∀ l ∈ ls, ¬(l.sku_id = sku ∧ l.warehouse_id = wh)) :
    lockSum ls sku wh = 0 := by
  have hf : ls.filter (fun l => l.sku_id == sku && l.warehouse_id == wh &&
      decide (l.status = LockStatus.LOCKED)) = [] := by
    rw [List.filter_eq_nil]
    intro l hl
    simp only [Bool.and_eq_true, beq_iff_eq, decide_eq_true_eq, not_and]
    intro hb
    exact fun _ => absurd ⟨hb.1, hb.2⟩ (h l hl)
  rw [lockSum, hf]
  rfl

theorem hasKey_stocks_congr {db db' : DB} {sku : String} {wh : Int}
    (h : db'.stocks.map sKey = db.stocks.map sKey) (hk : HasKey db sku wh) :
    HasKey db' sku wh := by
  rw [hasKey_iff_mem_map] at hk ⊢
  rw [h]
  exact hk

theorem not_hasKey_of_getStock_none {db : DB} {sku : String} {wh : Int}
    (h : getStock db sku wh = none) : ¬HasKey db sku wh := by
  intro hk
  have hs := getStock_isSome_of_hasKey hk
  rw [h] at hs
  simp at hs

theorem mem_setStock_self {db : DB} {st0 st' : Stock} (hmem : st0 ∈ db.stocks)
    (hsku : st0.sku_id = st'.sku_id) (hwh : st0.warehouse_id = st'.warehouse_id) :
    st' ∈ (setStock db st').stocks := by
  have hmap := List.mem_map_of_mem (fun st : Stock =>
    if st.sku_id == st'.sku_id && st.warehouse_id == st'.warehouse_id then st' else st) hmem
  rw [show ((fun st : Stock =>
      if (st.sku_id == st'.sku_id && st.warehouse_id == st'.warehouse_id) = true
      then st' else st) st0) = st' by simp [hsku, hwh]] at hmap
  exact hmap




/-! ### `stock_in` preservation -/

theorem stockInStep_some {db : DB} {wh : Int} {stp sono : String} {item : StockInItem}
    {st0 : Stock} (hfound : getStock db item.sku_id wh = some st0) :
    stockInStep wh stp sono db item =
      ({ stocks := (setStock db
            { st0 with
              qty := st0.qty + item.qty
              available_qty := st0.qty + item.qty - st0.locked_qty
              avg_cost := if 0 < st0.qty + item.qty then
                  (st0.qty * st0.avg_cost + item.qty * item.unit_cost) / (st0.qty + item.qty)
                else st0.avg_cost }).stocks
         details := db.details ++ [⟨db.nextId, item.sku_id, wh,
            (if pyTruthyStr item.batch_no then item.batch_no.getD ""
             else "BN" ++ toString db.nextId),
            item.qty, 0, item.unit_cost, stp, some sono, db.nextId⟩]
         moves := db.moves ++ [⟨db.nextId, item.sku_id, wh, .IN, item.qty, st0.qty,
            st0.qty + item.qty, item.unit_cost, stp, some sono,
            some (if pyTruthyStr item.batch_no then item.batch_no.getD ""
              else "BN" ++ toString db.nextId)⟩]
         locks := db.locks
         nextId := db.nextId + 1 },
       ⟨item.sku_id, wh, .IN, item.qty, st0.qty, st0.qty + item.qty, stp, some sono⟩) := by
  simp only [stockInStep, hfound, Option.getD_some]
  rfl

theorem stockInStep_none {db : DB} {wh : Int} {stp sono : String} {item : StockInItem}
    (hfound : getStock db item.sku_id wh = none) :
    stockInStep wh stp sono db item =
      ({ stocks := (setStock { db with stocks := db.stocks ++ [⟨item.sku_id, wh, 0, 0, 0, 0⟩] }
            { (⟨item.sku_id, wh, 0, 0, 0, 0⟩ : Stock) with
              qty := (0 : ℚ) + item.qty
              available_qty := (0 : ℚ) + item.qty - 0
              avg_cost := if 0 < (0 : ℚ) + item.qty then
                  ((0 : ℚ) * 0 + item.qty * item.unit_cost) / (0 + item.qty)
                else (0 : ℚ) }).stocks
         details := db.details ++ [⟨db.nextId, item.sku_id, wh,
            (if pyTruthyStr item.batch_no then item.batch_no.getD ""
             else "BN" ++ toString db.nextId),
            item.qty, 0, item.unit_cost, stp, some sono, db.nextId⟩]
         moves := db.moves ++ [⟨db.nextId, item.sku_id, wh, .IN, item.qty, 0,
            (0 : ℚ) + item.qty, item.unit_cost, stp, some sono,
            some (if pyTruthyStr item.batch_no then item.batch_no.getD ""
              else "BN" ++ toString db.nextId)⟩]
         locks := db.locks
         nextId := db.nextId + 1 },
       ⟨item.sku_id, wh, .IN, item.qty, 0, (0 : ℚ) + item.qty, stp, some sono⟩) := by
  simp only [stockInStep, hfound, Option.getD_none]
  rfl

theorem invFull_append_zero_stock {db : DB} {sku : String} {wh : Int}
    (hinv : InvFull db) (hnone : getStock db sku wh = none) :
    InvFull { db with stocks := db.stocks ++ [⟨sku, wh, 0, 0, 0, 0⟩] } := by
  have hnk := not_hasKey_of_getStock_none hnone
  refine ⟨?_, ?_, ?_, hinv.createdPW, hinv.idsPW, ?_, hinv.lockNosPW⟩
  · refine pairwise_append_singleton hinv.keysPW (fun a ha hk => ?_)
    exact hnk ⟨a, ha, congrArg Prod.fst hk, congrArg Prod.snd hk⟩
  · intro st hst
    rcases List.mem_append.mp hst with hmem | hnew
    · exact hinv.stocksOk st hmem
    · rw [List.mem_singleton] at hnew
      subst hnew
      refine ⟨by norm_num, le_refl _, le_refl _, le_refl _, ?_, ?_⟩
      · refine (detailSum_eq_zero_of_no_key (fun d hd hk => ?_)).symm
        have hdk := (hinv.detailsOk d hd).2.2.2.2.2
        rw [hk.1, hk.2] at hdk
        exact hnk hdk
      · refine (lockSum_eq_zero_of_no_key (fun l hl hk => ?_)).symm
        have hdk := (hinv.locksOk l hl).2.2
        rw [hk.1, hk.2] at hdk
        exact hnk hdk
  · intro d hd
    obtain ⟨h1, h2, h3, h4, h5, st, hst, hk⟩ := hinv.detailsOk d hd
    exact ⟨h1, h2, h3, h4, h5, st, List.mem_append_left _ hst, hk⟩
  · intro l hl
    obtain ⟨h1, h2, st, hst, hk⟩ := hinv.locksOk l hl
    exact ⟨h1, h2, st, List.mem_append_left _ hst, hk⟩

theorem invFull_stockIn_core {db0 : DB} {wh : Int} {stp sono : String} {item : StockInItem}
    {st0 : Stock} (hinv : InvFull db0) (hmem : st0 ∈ db0.stocks)
    (hsku : st0.sku_id = item.sku_id) (hwh : st0.warehouse_id = wh)
    (hq : 0 < item.qty) (hcost : 0 ≤ item.unit_cost) (batch : String) :
    InvFull
      { stocks := (setStock db0
          { st0 with
            qty := st0.qty + item.qty
            available_qty := st0.qty + item.qty - st0.locked_qty
            avg_cost := if 0 < st0.qty + item.qty then
                (st0.qty * st0.avg_cost + item.qty * item.unit_cost) / (st0.qty + item.qty)
              else st0.avg_cost }).stocks
        details := db0.details ++ [⟨db0.nextId, item.sku_id, wh, batch,
          item.qty, 0, item.unit_cost, stp, some sono, db0.nextId⟩]
        moves := db0.moves ++ [⟨db0.nextId, item.sku_id, wh, .IN, item.qty, st0.qty,
          st0.qty + item.qty, item.unit_cost, stp, some sono, some batch⟩]
        locks := db0.locks
        nextId := db0.nextId + 1 } := by
  obtain ⟨hav0, hlk0, hlq0, hag0, hds0, hls0⟩ := hinv.stocksOk st0 hmem
  have hq0 : 0 ≤ st0.qty := le_trans hlk0 hlq0
  have hmapkeys := setStock_map_sKey db0
    { st0 with
      qty := st0.qty + item.qty
      available_qty := st0.qty + item.qty - st0.locked_qty
      avg_cost := if 0 < st0.qty + item.qty then
          (st0.qty * st0.avg_cost + item.qty * item.unit_cost) / (st0.qty + item.qty)
        else st0.avg_cost }
  refine ⟨?_, ?_, ?_, ?_, ?_, ?_, hinv.lockNosPW⟩
  · exact pairwise_map_transfer hmapkeys hinv.keysPW
  · intro st hst
    rcases mem_setStock hst with rfl | ⟨hold, hne⟩
    · refine ⟨rfl, hlk0, show st0.locked_qty ≤ st0.qty + item.qty by linarith, ?_, ?_, ?_⟩
      · show (0 : ℚ) ≤ if 0 < st0.qty + item.qty then
            (st0.qty * st0.avg_cost + item.qty * item.unit_cost) / (st0.qty + item.qty)
          else st0.avg_cost
        by_cases hpos : 0 < st0.qty + item.qty
        · rw [if_pos hpos]
          have hnum : 0 ≤ st0.qty * st0.avg_cost + item.qty * item.unit_cost :=
            add_nonneg (mul_nonneg hq0 hag0) (mul_nonneg (le_of_lt hq) hcost)
          exact div_nonneg hnum (le_of_lt hpos)
        · rw [if_neg hpos]
          exact hag0
      · show st0.qty + item.qty = detailSum _ st0.sku_id st0.warehouse_id
        rw [hsku, hwh, detailSum_append]
        have hcnd : ((⟨db0.nextId, item.sku_id, wh, batch, item.qty, 0, item.unit_cost, stp,
            some sono, db0.nextId⟩ : StockDetail).sku_id = item.sku_id ∧
            (⟨db0.nextId, item.sku_id, wh, batch, item.qty, 0, item.unit_cost, stp,
            some sono, db0.nextId⟩ : StockDetail).warehouse_id = wh) := ⟨rfl, rfl⟩
        rw [if_pos hcnd, ← hsku, ← hwh, ← hds0]
      · show st0.locked_qty = lockSum db0.locks st0.sku_id st0.warehouse_id
        exact hls0
    · obtain ⟨hav, hlk, hlq, hag, hds, hls⟩ := hinv.stocksOk st hold
      refine ⟨hav, hlk, hlq, hag, ?_, hls⟩
      rw [detailSum_append, if_neg ?_, add_zero]
      · exact hds
      · rintro ⟨h1, h2⟩
        exact hne ⟨h1.symm.trans hsku.symm, h2.symm.trans hwh.symm⟩
  · intro d hd
    rcases List.mem_append.mp hd with hold | hnew
    · obtain ⟨h1, h2, h3, h4, h5, hk⟩ := hinv.detailsOk d hold
      refine ⟨h1, h2, h3, ?_, ?_, ?_⟩
      · show d.detail_id < db0.nextId + 1
        omega
      · show d.created_at < db0.nextId + 1
        omega
      · exact hasKey_stocks_congr hmapkeys hk
    · rw [List.mem_singleton] at hnew
      subst hnew
      refine ⟨le_of_lt hq, rfl, hcost, ?_, ?_, ?_⟩
      · show db0.nextId < db0.nextId + 1
        omega
      · show db0.nextId < db0.nextId + 1
        omega
      · exact ⟨_, mem_setStock_self hmem rfl rfl, hsku, hwh⟩
  · refine pairwise_append_singleton hinv.createdPW (fun a ha => ?_)
    exact (hinv.detailsOk a ha).2.2.2.2.1
  · refine pairwise_append_singleton hinv.idsPW (fun a ha => ?_)
    exact Nat.ne_of_lt (hinv.detailsOk a ha).2.2.2.1
  · intro l hl
    obtain ⟨h1, h2, hk⟩ := hinv.locksOk l hl
    refine ⟨h1, ?_, hasKey_stocks_congr hmapkeys hk⟩
    show l.lock_no < db0.nextId + 1
    omega

theorem invFull_stockInStep {db : DB} {wh : Int} {stp sono : String} {item : StockInItem}
    (hinv : InvFull db) (hq : 0 < item.qty) (hcost : 0 ≤ item.unit_cost) :
    InvFull (stockInStep wh stp sono db item).1 := by
  rcases hfound : getStock db item.sku_id wh with _ | st0
  · rw [stockInStep_none hfound]
    exact invFull_stockIn_core (invFull_append_zero_stock hinv hfound)
      (List.mem_append_right _ (List.mem_singleton_self _)) rfl rfl hq hcost _
  · rw [stockInStep_some hfound]
    obtain ⟨hmem, hsku, hwh⟩ := getStock_eq_some hfound
    exact invFull_stockIn_core hinv hmem hsku hwh hq hcost _


theorem invFull_stockInLoop {wh : Int} {stp sono : String} :
    ∀ (items : List StockInItem) (db : DB), InvFull db →
      (∀ it ∈ items, 0 < it.qty ∧ 0 ≤ it.unit_cost) →
      InvFull (stockInLoop wh stp sono db items).1
  | [], _, hinv, _ => hinv
  | item :: rest, db, hinv, hval => by
    rw [stockInLoop]
    exact invFull_stockInLoop rest _
      (invFull_stockInStep hinv (hval item (List.mem_cons_self item rest)).1
        (hval item (List.mem_cons_self item rest)).2)
      (fun it hit => hval it (List.mem_cons_of_mem _ hit))

theorem invFull_stock_in {db : DB} {req : StockInRequest} (hinv : InvFull db)
    (hval : ∀ it ∈ req.items, 0 < it.qty ∧ 0 ≤ it.unit_cost) :
    InvFull (stock_in db req).1 :=
  invFull_stockInLoop req.items db hinv hval

/-! ### `stock_out` preservation -/

theorem stockOutStep_err_notFound {db : DB} {wh : Int} {stp sono : String}
    {item : StockOutItem} (hfound : getStock db item.sku_id wh = none) :
    stockOutStep wh stp sono db item = .error .STOCK_NOT_FOUND := by
  simp only [stockOutStep, hfound]

theorem stockOutStep_err_insufficient {db : DB} {wh : Int} {stp sono : String}
    {item : StockOutItem} {st : Stock} (hfound : getStock db item.sku_id wh = some st)
    (hav : st.available_qty < item.qty) :
    stockOutStep wh stp sono db item = .error .INSUFFICIENT_STOCK := by
  simp only [stockOutStep, hfound]
  rw [if_pos hav]

theorem stockOutStep_err_batch {db : DB} {wh : Int} {stp sono : String}
    {item : StockOutItem} {st : Stock} (hfound : getStock db item.sku_id wh = some st)
    (hav : ¬st.available_qty < item.qty)
    (hrem : 0 < (depleteWalk true item.qty
      (getAvailableDetails db item.sku_id wh item.batch_no)).2.1) :
    stockOutStep wh stp sono db item = .error .INSUFFICIENT_BATCH_STOCK := by
  simp only [stockOutStep, hfound]
  rw [if_neg hav, if_pos hrem]

theorem stockOutStep_ok_eq {db : DB} {wh : Int} {stp sono : String}
    {item : StockOutItem} {st : Stock} (hfound : getStock db item.sku_id wh = some st)
    (hav : ¬st.available_qty < item.qty)
    (hrem : ¬0 < (depleteWalk true item.qty
      (getAvailableDetails db item.sku_id wh item.batch_no)).2.1) :
    stockOutStep wh stp sono db item = .ok
      ({ stocks := (setStock db
            { st with
              qty := st.qty - item.qty
              available_qty := st.qty - item.qty - st.locked_qty }).stocks
         details := writeBackDetails db.details
           (depleteWalk true item.qty (getAvailableDetails db item.sku_id wh item.batch_no)).1
         moves := db.moves ++ [⟨db.nextId, item.sku_id, wh, .OUT, item.qty, st.qty,
           st.qty - item.qty,
           (if 0 < item.qty then (depleteWalk true item.qty
             (getAvailableDetails db item.sku_id wh item.batch_no)).2.2 / item.qty else 0),
           stp, some sono, item.batch_no⟩]
         locks := db.locks
         nextId := db.nextId + 1 },
       (depleteWalk true item.qty (getAvailableDetails db item.sku_id wh item.batch_no)).2.2,
       ⟨item.sku_id, wh, .OUT, item.qty, st.qty, st.qty - item.qty, stp, some sono⟩) := by
  simp only [stockOutStep, hfound]
  rw [if_neg hav, if_neg hrem]
  rfl

theorem invFull_stockOutStep {db : DB} {wh : Int} {stp sono : String} {item : StockOutItem}
    {db' : DB} {c : ℚ} {pe : PubEvent} (hinv : InvFull db) (hq : 0 < item.qty)
    (hok : stockOutStep wh stp sono db item = .ok (db', c, pe)) : InvFull db' := by
  rcases hfound : getStock db item.sku_id wh with _ | st
  · rw [stockOutStep_err_notFound hfound] at hok
    cases hok
  by_cases hav : st.available_qty < item.qty
  · rw [stockOutStep_err_insufficient hfound hav] at hok
    cases hok
  by_cases hrem : 0 < (depleteWalk true item.qty
      (getAvailableDetails db item.sku_id wh item.batch_no)).2.1
  · rw [stockOutStep_err_batch hfound hav hrem] at hok
    cases hok
  rw [stockOutStep_ok_eq hfound hav hrem] at hok
  obtain ⟨hmem, hsku, hwh⟩ := getStock_eq_some hfound
  obtain ⟨hav0, hlk0, hlq0, hag0, hds0, hls0⟩ := hinv.stocksOk st hmem
  have hlkz : ∀ d ∈ db.details, true = true → d.locked_qty = 0 :=
    fun d hd _ => (hinv.detailsOk d hd).2.1
  have hbridge := walk_writeBack_eq_direct item.sku_id wh item.batch_no true item.qty
    db.details hinv.idsPW
  have hdetails : writeBackDetails db.details
      (depleteWalk true item.qty (getAvailableDetails db item.sku_id wh item.batch_no)).1 =
      (directDeplete item.sku_id wh item.batch_no true item.qty db.details).1 := by
    rw [getAvailableDetails_eq_filter hinv.createdPW]
    exact hbridge.1
  have hremrw : (depleteWalk true item.qty
      (getAvailableDetails db item.sku_id wh item.batch_no)).2.1 =
      (directDeplete item.sku_id wh item.batch_no true item.qty db.details).2.1 := by
    rw [getAvailableDetails_eq_filter hinv.createdPW]
    rw [hbridge.2]
  have hrb := directDeplete_rem_bounds item.sku_id wh item.batch_no true item.qty db.details
    (le_of_lt hq) hlkz
  have hrem0 : (directDeplete item.sku_id wh item.batch_no true item.qty db.details).2.1 = 0 := by
    rw [hremrw] at hrem
    exact le_antisymm (by linarith [hrb.1]) hrb.1
  have hsum : detailSum (directDeplete item.sku_id wh item.batch_no true item.qty
      db.details).1 item.sku_id wh = detailSum db.details item.sku_id wh - item.qty := by
    rw [directDeplete_detailSum, hrem0]
    ring
  have hmapkeys := setStock_map_sKey db
    { st with
      qty := st.qty - item.qty
      available_qty := st.qty - item.qty - st.locked_qty }
  cases hok
  rw [hdetails]
  refine ⟨?_, ?_, ?_, ?_, ?_, ?_, hinv.lockNosPW⟩
  · exact pairwise_map_transfer hmapkeys hinv.keysPW
  · intro st' hst'
    rcases mem_setStock hst' with rfl | ⟨hold, hne⟩
    · refine ⟨rfl, hlk0, show st.locked_qty ≤ st.qty - item.qty by
        rw [hav0] at hav; linarith, hag0, ?_, hls0⟩
      show st.qty - item.qty = detailSum _ st.sku_id st.warehouse_id
      rw [hsku, hwh, hsum, ← hsku, ← hwh, ← hds0]
    · obtain ⟨hav', hlk', hlq', hag', hds', hls'⟩ := hinv.stocksOk st' hold
      refine ⟨hav', hlk', hlq', hag', ?_, hls'⟩
      rw [directDeplete_detailSum_other]
      · exact hds'
      · rintro ⟨h1, h2⟩
        exact hne ⟨h1.trans hsku.symm, h2.trans hwh.symm⟩
  · intro d' hd'
    obtain ⟨d, hd, hdk⟩ := directDeplete_mem_key hd'
    obtain ⟨hid, hcr, hsk, hwd, hlo, huc⟩ := dKey_fields hdk
    obtain ⟨hq1, hl1, hu1, hi1, hc1, hk1⟩ := hinv.detailsOk d hd
    refine ⟨?_, ?_, ?_, ?_, ?_, ?_⟩
    · exact directDeplete_qty_nonneg item.sku_id wh item.batch_no true item.qty db.details
        (fun x hx => ⟨(hinv.detailsOk x hx).1, fun _ => (hinv.detailsOk x hx).2.1⟩) d' hd'
    · rw [← hlo]
      exact hl1
    · rw [← huc]
      exact hu1
    · show d'.detail_id < db.nextId + 1
      rw [← hid]
      omega
    · show d'.created_at < db.nextId + 1
      rw [← hcr]
      omega
    · rw [← hsk, ← hwd]
      exact hasKey_stocks_congr hmapkeys hk1
  · exact pairwise_map_transfer
      (directDeplete_map_created item.sku_id wh item.batch_no true item.qty db.details)
      hinv.createdPW
  · exact pairwise_map_transfer
      (directDeplete_map_ids item.sku_id wh item.batch_no true item.qty db.details)
      hinv.idsPW
  · intro l hl
    obtain ⟨h1, h2, hk⟩ := hinv.locksOk l hl
    refine ⟨h1, ?_, hasKey_stocks_congr hmapkeys hk⟩
    show l.lock_no < db.nextId + 1
    omega

theorem invFull_stockOutLoop {wh : Int} {stp sono : String} :
    ∀ (items : List StockOutItem) (db : DB), InvFull db →
      (∀ it ∈ items, 0 < it.qty) → ∀ res,
      (stockOutLoop wh stp sono db items).1 = .ok res → InvFull res.1
  | [], db, hinv, _, res, hok => by
    rw [stockOutLoop] at hok
    cases hok
    exact hinv
  | item :: rest, db, hinv, hval, res, hok => by
    rw [stockOutLoop] at hok
    rcases hstep : stockOutStep wh stp sono db item with e | x
    · rw [hstep] at hok
      cases hok
    · obtain ⟨db1, c, pe⟩ := x
      rw [hstep] at hok
      have hinv1 : InvFull db1 :=
        invFull_stockOutStep hinv (hval item (List.mem_cons_self item rest)) hstep
      rcases hrest : (stockOutLoop wh stp sono db1 rest).1 with e' | res'
      · simp only [hrest] at hok
        cases hok
      · simp only [hrest] at hok
        cases hok
        exact invFull_stockOutLoop rest db1 hinv1
          (fun it hit => hval it (List.mem_cons_of_mem _ hit)) res' hrest


/-! ### `lock_stock` preservation -/

theorem lockStep_err_notFound {db : DB} {wh : Int} {stp sono : String}
    {item : StockLockItem} (hfound : getStock db item.sku_id wh = none) :
    lockStep wh stp sono db item = .error .STOCK_NOT_FOUND := by
  simp only [lockStep, hfound]

theorem lockStep_err_insufficient {db : DB} {wh : Int} {stp sono : String}
    {item : StockLockItem} {st : Stock} (hfound : getStock db item.sku_id wh = some st)
    (hav : st.available_qty < item.qty) :
    lockStep wh stp sono db item = .error .INSUFFICIENT_AVAILABLE_STOCK := by
  simp only [lockStep, hfound]
  rw [if_pos hav]

theorem lockStep_ok_eq {db : DB} {wh : Int} {stp sono : String}
    {item : StockLockItem} {st : Stock} (hfound : getStock db item.sku_id wh = some st)
    (hav : ¬st.available_qty < item.qty) :
    lockStep wh stp sono db item = .ok
      { stocks := (setStock db
          { st with
            locked_qty := st.locked_qty + item.qty
            available_qty := st.qty - (st.locked_qty + item.qty) }).stocks
        details := db.details
        moves := db.moves ++ [⟨db.nextId, item.sku_id, wh, .LOCK, item.qty, st.locked_qty,
          st.locked_qty + item.qty, 0, stp, some sono, none⟩]
        locks := db.locks ++ [⟨db.nextId, item.sku_id, wh, item.qty, .LOCKED, stp, sono⟩]
        nextId := db.nextId + 1 } := by
  simp only [lockStep, hfound]
  rw [if_neg hav]
  rfl

theorem invFull_lockStep {db : DB} {wh : Int} {stp sono : String} {item : StockLockItem}
    {db' : DB} (hinv : InvFull db) (hq : 0 < item.qty)
    (hok : lockStep wh stp sono db item = .ok db') : InvFull db' := by
  rcases hfound : getStock db item.sku_id wh with _ | st
  · rw [lockStep_err_notFound hfound] at hok
    cases hok
  by_cases hav : st.available_qty < item.qty
  · rw [lockStep_err_insufficient hfound hav] at hok
    cases hok
  rw [lockStep_ok_eq hfound hav] at hok
  obtain ⟨hmem, hsku, hwh⟩ := getStock_eq_some hfound
  obtain ⟨hav0, hlk0, hlq0, hag0, hds0, hls0⟩ := hinv.stocksOk st hmem
  have hmapkeys := setStock_map_sKey db
    { st with
      locked_qty := st.locked_qty + item.qty
      available_qty := st.qty - (st.locked_qty + item.qty) }
  cases hok
  refine ⟨?_, ?_, ?_, hinv.createdPW, hinv.idsPW, ?_, ?_⟩
  · exact pairwise_map_transfer hmapkeys hinv.keysPW
  · intro st' hst'
    rcases mem_setStock hst' with rfl | ⟨hold, hne⟩
    · refine ⟨rfl, show (0 : ℚ) ≤ st.locked_qty + item.qty by linarith,
        show st.locked_qty + item.qty ≤ st.qty by rw [hav0] at hav; linarith, hag0, hds0, ?_⟩
      show st.locked_qty + item.qty = lockSum _ st.sku_id st.warehouse_id
      rw [hsku, hwh, lockSum_append]
      have hcnd : ((⟨db.nextId, item.sku_id, wh, item.qty, .LOCKED, stp, sono⟩ :
          StockLock).sku_id = item.sku_id ∧
          (⟨db.nextId, item.sku_id, wh, item.qty, .LOCKED, stp, sono⟩ :
          StockLock).warehouse_id = wh ∧
          (⟨db.nextId, item.sku_id, wh, item.qty, .LOCKED, stp, sono⟩ :
          StockLock).status = LockStatus.LOCKED) := ⟨rfl, rfl, rfl⟩
      rw [if_pos hcnd, ← hsku, ← hwh, ← hls0]
    · obtain ⟨hav', hlk', hlq', hag', hds', hls'⟩ := hinv.stocksOk st' hold
      refine ⟨hav', hlk', hlq', hag', hds', ?_⟩
      rw [lockSum_append, if_neg ?_, add_zero]
      · exact hls'
      · rintro ⟨h1, h2, _⟩
        exact hne ⟨h1.symm.trans hsku.symm, h2.symm.trans hwh.symm⟩
  · intro d hd
    obtain ⟨h1, h2, h3, h4, h5, hk⟩ := hinv.detailsOk d hd
    refine ⟨h1, h2, h3, ?_, ?_, hasKey_stocks_congr hmapkeys hk⟩
    · show d.detail_id < db.nextId + 1
      omega
    · show d.created_at < db.nextId + 1
      omega
  · intro l hl
    rcases List.mem_append.mp hl with hold | hnew
    · obtain ⟨h1, h2, hk⟩ := hinv.locksOk l hold
      refine ⟨h1, ?_, hasKey_stocks_congr hmapkeys hk⟩
      show l.lock_no < db.nextId + 1
      omega
    · rw [List.mem_singleton] at hnew
      subst hnew
      refine ⟨hq, ?_, ?_⟩
      · show db.nextId < db.nextId + 1
        omega
      · exact ⟨_, mem_setStock_self hmem rfl rfl, hsku, hwh⟩
  · refine pairwise_append_singleton hinv.lockNosPW (fun a ha => ?_)
    exact Nat.ne_of_lt (hinv.locksOk a ha).2.1

theorem invFull_lockLoop {wh : Int} {stp sono : String} :
    ∀ (items : List StockLockItem) (db : DB), InvFull db →
      (∀ it ∈ items, 0 < it.qty) → ∀ db',
      lockLoop wh stp sono db items = .ok db' → InvFull db'
  | [], db, hinv, _, db', hok => by
    rw [lockLoop] at hok
    cases hok
    exact hinv
  | item :: rest, db, hinv, hval, db', hok => by
    rw [lockLoop] at hok
    rcases hstep : lockStep wh stp sono db item with e | db1
    · rw [hstep] at hok
      cases hok
    · rw [hstep] at hok
      exact invFull_lockLoop rest db1
        (invFull_lockStep hinv (hval item (List.mem_cons_self item rest)) hstep)
        (fun it hit => hval it (List.mem_cons_of_mem _ hit)) db' hok


/-! ### `unlock_stock` preservation -/

theorem lKey_fields {a b : StockLock} (h : lKey a = lKey b) :
    a.lock_no = b.lock_no ∧ a.sku_id = b.sku_id ∧ a.warehouse_id = b.warehouse_id ∧
    a.locked_qty = b.locked_qty := by
  simp only [lKey, Prod.mk.injEq] at h
  exact ⟨h.1, h.2.1, h.2.2.1, h.2.2.2.1⟩

theorem mem_lKey_of_mem_setLockStatus {ls : List StockLock} {n : Nat} {s : LockStatus}
    {y : StockLock} (hy : y ∈ setLockStatus ls n s) :
    ∃ x ∈ ls, lKey x = lKey y := by
  have hm : lKey y ∈ (setLockStatus ls n s).map lKey := List.mem_map_of_mem lKey hy
  rw [setLockStatus_map_lKey] at hm
  obtain ⟨x, hx, hk⟩ := List.mem_map.mp hm
  exact ⟨x, hx, hk⟩

theorem unlockLoop_cons_some {db : DB} {l : StockLock} {st : Stock} (rest : List StockLock)
    (hfound : getStock db l.sku_id l.warehouse_id = some st) :
    unlockLoop db (l :: rest) =
      ((unlockLoop
        { stocks := (setStock db
            { st with
              locked_qty := st.locked_qty - l.locked_qty
              available_qty := st.qty - (st.locked_qty - l.locked_qty) }).stocks
          details := db.details
          moves := db.moves ++ [⟨db.nextId, l.sku_id, l.warehouse_id, .UNLOCK, l.locked_qty,
            st.locked_qty, st.locked_qty - l.locked_qty, 0, l.source_type,
            some l.source_order_no, none⟩]
          locks := setLockStatus db.locks l.lock_no .UNLOCKED
          nextId := db.nextId + 1 } rest).1,
       (unlockLoop
        { stocks := (setStock db
            { st with
              locked_qty := st.locked_qty - l.locked_qty
              available_qty := st.qty - (st.locked_qty - l.locked_qty) }).stocks
          details := db.details
          moves := db.moves ++ [⟨db.nextId, l.sku_id, l.warehouse_id, .UNLOCK, l.locked_qty,
            st.locked_qty, st.locked_qty - l.locked_qty, 0, l.source_type,
            some l.source_order_no, none⟩]
          locks := setLockStatus db.locks l.lock_no .UNLOCKED
          nextId := db.nextId + 1 } rest).2 + 1) := by
  simp only [unlockLoop, hfound]
  rfl

theorem invFull_unlock_core {db : DB} {l : StockLock} {st : Stock}
    (hinv : InvFull db) (hl : l ∈ db.locks) (hs : l.status = LockStatus.LOCKED)
    (hfound : getStock db l.sku_id l.warehouse_id = some st) :
    InvFull
      { stocks := (setStock db
          { st with
            locked_qty := st.locked_qty - l.locked_qty
            available_qty := st.qty - (st.locked_qty - l.locked_qty) }).stocks
        details := db.details
        moves := db.moves ++ [⟨db.nextId, l.sku_id, l.warehouse_id, .UNLOCK, l.locked_qty,
          st.locked_qty, st.locked_qty - l.locked_qty, 0, l.source_type,
          some l.source_order_no, none⟩]
        locks := setLockStatus db.locks l.lock_no .UNLOCKED
        nextId := db.nextId + 1 } := by
  obtain ⟨hmem, hsku, hwh⟩ := getStock_eq_some hfound
  obtain ⟨hav0, hlk0, hlq0, hag0, hds0, hls0⟩ := hinv.stocksOk st hmem
  have hLpos : 0 < l.locked_qty := (hinv.locksOk l hl).1
  have hpos : ∀ x ∈ db.locks, 0 < x.locked_qty := fun x hx => (hinv.locksOk x hx).1
  have hge : l.locked_qty ≤ lockSum db.locks l.sku_id l.warehouse_id :=
    le_lockSum_of_mem hpos hl hs
  have hge' : l.locked_qty ≤ st.locked_qty := by
    rw [hls0, hsku, hwh]
    exact hge
  have hmapkeys := setStock_map_sKey db
    { st with
      locked_qty := st.locked_qty - l.locked_qty
      available_qty := st.qty - (st.locked_qty - l.locked_qty) }
  refine ⟨?_, ?_, ?_, hinv.createdPW, hinv.idsPW, ?_, ?_⟩
  · exact pairwise_map_transfer hmapkeys hinv.keysPW
  · intro st' hst'
    rcases mem_setStock hst' with rfl | ⟨hold, hne⟩
    · refine ⟨rfl, show (0 : ℚ) ≤ st.locked_qty - l.locked_qty by linarith,
        show st.locked_qty - l.locked_qty ≤ st.qty by linarith, hag0, hds0, ?_⟩
      show st.locked_qty - l.locked_qty = lockSum _ st.sku_id st.warehouse_id
      rw [lockSum_setLockStatus hinv.lockNosPW hl hs (by simp)]
      rw [if_pos ⟨hsku.symm, hwh.symm⟩, ← hls0]
    · obtain ⟨hav', hlk', hlq', hag', hds', hls'⟩ := hinv.stocksOk st' hold
      refine ⟨hav', hlk', hlq', hag', hds', ?_⟩
      rw [lockSum_setLockStatus hinv.lockNosPW hl hs (by simp)]
      rw [if_neg ?_, sub_zero]
      · exact hls'
      · rintro ⟨h1, h2⟩
        exact hne ⟨(hsku.trans h1).symm.trans rfl, (hwh.trans h2).symm.trans rfl⟩
  · intro d hd
    obtain ⟨h1, h2, h3, h4, h5, hk⟩ := hinv.detailsOk d hd
    refine ⟨h1, h2, h3, ?_, ?_, hasKey_stocks_congr hmapkeys hk⟩
    · show d.detail_id < db.nextId + 1
      omega
    · show d.created_at < db.nextId + 1
      omega
  · intro y hy
    obtain ⟨x, hx, hxy⟩ := mem_lKey_of_mem_setLockStatus hy
    obtain ⟨hno, hsk, hwd, hlq⟩ := lKey_fields hxy
    obtain ⟨h1, h2, hk⟩ := hinv.locksOk x hx
    refine ⟨hlq ▸ h1, ?_, ?_⟩
    · show y.lock_no < db.nextId + 1
      rw [← hno]
      omega
    · rw [← hsk, ← hwd]
      exact hasKey_stocks_congr hmapkeys hk
  · exact pairwise_map_transfer (f := lKey)
      (R := fun x y => x.1 ≠ y.1)
      (setLockStatus_map_lKey db.locks l.lock_no .UNLOCKED) hinv.lockNosPW

theorem invFull_unlockLoop :
    ∀ (M : List StockLock) (db : DB), InvFull db →
      (∀ l ∈ M, l ∈ db.locks ∧ l.status = LockStatus.LOCKED) →
      M.Pairwise (fun a b => a.lock_no ≠ b.lock_no) →
      InvFull (unlockLoop db M).1
  | [], _, hinv, _, _ => hinv
  | l :: rest, db, hinv, hM, hpw => by
    rw [List.pairwise_cons] at hpw
    have hl := hM l (List.mem_cons_self l rest)
    have hk := (hinv.locksOk l hl.1).2.2
    obtain ⟨st, hfound⟩ := Option.isSome_iff_exists.mp (getStock_isSome_of_hasKey hk)
    rw [unlockLoop_cons_some rest hfound]
    refine invFull_unlockLoop rest _ (invFull_unlock_core hinv hl.1 hl.2 hfound) ?_ hpw.2
    intro x hx
    refine ⟨?_, (hM x (List.mem_cons_of_mem l hx)).2⟩
    exact mem_setLockStatus_of_ne (hM x (List.mem_cons_of_mem l hx)).1
      (fun heq => hpw.1 x hx heq.symm)


/-! ### `consume_locked_stock` preservation -/

theorem detailCandidate_none_eq {sku : String} {wh : Int} {d : StockDetail} :
    detailCandidate sku wh none d =
      (d.sku_id == sku && d.warehouse_id == wh && decide (0 < d.qty)) := by
  simp [detailCandidate, pyTruthyStr]

theorem availSum_none_eq_detailSum {sku : String} {wh : Int} :
    ∀ {ds : List StockDetail}, (∀ d ∈ ds, 0 ≤ d.qty) →
      availSum ds sku wh none = detailSum ds sku wh := by
  intro ds
  induction ds with
  | nil => intro _; rfl
  | cons d t ih =>
    intro hq
    rw [availSum_cons, detailSum_cons, ih (fun x hx => hq x (List.mem_cons_of_mem d hx))]
    by_cases hk : d.sku_id = sku ∧ d.warehouse_id = wh
    · by_cases hdq : 0 < d.qty
      · rw [if_pos (by rw [detailCandidate_none_eq]; simp [hk.1, hk.2, hdq]), if_pos hk]
      · have h0 : d.qty = 0 :=
          le_antisymm (by simpa using hdq) (hq d (List.mem_cons_self d t))
        rw [if_neg (by rw [detailCandidate_none_eq]; simp [hdq]), if_pos hk, h0]
    · have hcand : ¬detailCandidate sku wh none d = true := by
        rw [detailCandidate_none_eq]
        rcases not_and_or.mp hk with h | h <;> simp [h]
      rw [if_neg hcand, if_neg hk]

theorem consumeStep_some_eq {db : DB} {sono : String} {l : StockLock} {st : Stock}
    (hfound : getStock db l.sku_id l.warehouse_id = some st) :
    consumeStep sono db l =
      ({ stocks := (setStock db
            { st with
              qty := st.qty - l.locked_qty
              locked_qty := st.locked_qty - l.locked_qty
              available_qty := st.qty - l.locked_qty - (st.locked_qty - l.locked_qty) }).stocks
         details := writeBackDetails db.details
           (depleteWalk false l.locked_qty
             (getAvailableDetails db l.sku_id l.warehouse_id none)).1
         moves := db.moves ++ [⟨db.nextId, l.sku_id, l.warehouse_id, .OUT, l.locked_qty,
           st.qty, st.qty - l.locked_qty,
           (if 0 < l.locked_qty then (depleteWalk false l.locked_qty
             (getAvailableDetails db l.sku_id l.warehouse_id none)).2.2 / l.locked_qty
            else 0), "SALE", some sono, none⟩]
         locks := setLockStatus db.locks l.lock_no .CONSUMED
         nextId := db.nextId + 1 },
       (depleteWalk false l.locked_qty
         (getAvailableDetails db l.sku_id l.warehouse_id none)).2.2,
       [Ev.publish ⟨l.sku_id, l.warehouse_id, .OUT, l.locked_qty, st.qty,
         st.qty - l.locked_qty, "SALE", some sono⟩]) := by
  simp only [consumeStep, hfound]
  rfl

theorem invFull_consume_core {db : DB} {sono : String} {l : StockLock} {st : Stock}
    (hinv : InvFull db) (hl : l ∈ db.locks) (hs : l.status = LockStatus.LOCKED)
    (hfound : getStock db l.sku_id l.warehouse_id = some st) :
    InvFull (consumeStep sono db l).1 := by
  rw [consumeStep_some_eq hfound]
  obtain ⟨hmem, hsku, hwh⟩ := getStock_eq_some hfound
  obtain ⟨hav0, hlk0, hlq0, hag0, hds0, hls0⟩ := hinv.stocksOk st hmem
  have hLpos : 0 < l.locked_qty := (hinv.locksOk l hl).1
  have hpos : ∀ x ∈ db.locks, 0 < x.locked_qty := fun x hx => (hinv.locksOk x hx).1
  have hge' : l.locked_qty ≤ st.locked_qty := by
    rw [hls0, hsku, hwh]
    exact le_lockSum_of_mem hpos hl hs
  have hlkz : ∀ d ∈ db.details, false = true → d.locked_qty = 0 :=
    fun d _ hh => Bool.noConfusion hh
  have hqnn : ∀ d ∈ db.details, 0 ≤ d.qty := fun d hd => (hinv.detailsOk d hd).1
  have hbridge := walk_writeBack_eq_direct l.sku_id l.warehouse_id none false l.locked_qty
    db.details hinv.idsPW
  have hdetails : writeBackDetails db.details
      (depleteWalk false l.locked_qty
        (getAvailableDetails db l.sku_id l.warehouse_id none)).1 =
      (directDeplete l.sku_id l.warehouse_id none false l.locked_qty db.details).1 := by
    rw [getAvailableDetails_eq_filter hinv.createdPW]
    exact hbridge.1
  have hsupply : l.locked_qty ≤ availSum db.details l.sku_id l.warehouse_id none := by
    rw [availSum_none_eq_detailSum hqnn]
    calc l.locked_qty ≤ st.locked_qty := hge'
      _ ≤ st.qty := hlq0
      _ = detailSum db.details l.sku_id l.warehouse_id := by rw [hds0, hsku, hwh]
  have hrem0 : (directDeplete l.sku_id l.warehouse_id none false l.locked_qty
      db.details).2.1 = 0 :=
    directDeplete_rem_zero l.sku_id l.warehouse_id none false l.locked_qty db.details
      (le_of_lt hLpos) hsupply hlkz
  have hsum : detailSum (directDeplete l.sku_id l.warehouse_id none false l.locked_qty
      db.details).1 l.sku_id l.warehouse_id =
      detailSum db.details l.sku_id l.warehouse_id - l.locked_qty := by
    rw [directDeplete_detailSum, hrem0]
    ring
  have hmapkeys := setStock_map_sKey db
    { st with
      qty := st.qty - l.locked_qty
      locked_qty := st.locked_qty - l.locked_qty
      available_qty := st.qty - l.locked_qty - (st.locked_qty - l.locked_qty) }
  rw [hdetails]
  refine ⟨?_, ?_, ?_, ?_, ?_, ?_, ?_⟩
  · exact pairwise_map_transfer hmapkeys hinv.keysPW
  · intro st' hst'
    rcases mem_setStock hst' with rfl | ⟨hold, hne⟩
    · refine ⟨rfl, show (0 : ℚ) ≤ st.locked_qty - l.locked_qty by linarith,
        show st.locked_qty - l.locked_qty ≤ st.qty - l.locked_qty by linarith, hag0, ?_, ?_⟩
      · show st.qty - l.locked_qty = detailSum _ st.sku_id st.warehouse_id
        rw [hsku, hwh, hsum, ← hsku, ← hwh, ← hds0]
      · show st.locked_qty - l.locked_qty = lockSum _ st.sku_id st.warehouse_id
        rw [lockSum_setLockStatus hinv.lockNosPW hl hs (by simp)]
        rw [if_pos ⟨hsku.symm, hwh.symm⟩, ← hls0]
    · obtain ⟨hav', hlk', hlq', hag', hds', hls'⟩ := hinv.stocksOk st' hold
      refine ⟨hav', hlk', hlq', hag', ?_, ?_⟩
      · rw [directDeplete_detailSum_other]
        · exact hds'
        · rintro ⟨h1, h2⟩
          exact hne ⟨h1.trans hsku.symm, h2.trans hwh.symm⟩
      · rw [lockSum_setLockStatus hinv.lockNosPW hl hs (by simp)]
        rw [if_neg ?_, sub_zero]
        · exact hls'
        · rintro ⟨h1, h2⟩
          exact hne ⟨(hsku.trans h1).symm, (hwh.trans h2).symm⟩
  · intro d' hd'
    obtain ⟨d, hd, hdk⟩ := directDeplete_mem_key hd'
    obtain ⟨hid, hcr, hsk, hwd, hlo, huc⟩ := dKey_fields hdk
    obtain ⟨hq1, hl1, hu1, hi1, hc1, hk1⟩ := hinv.detailsOk d hd
    refine ⟨?_, ?_, ?_, ?_, ?_, ?_⟩
    · exact directDeplete_qty_nonneg l.sku_id l.warehouse_id none false l.locked_qty
        db.details (fun x hx => ⟨(hinv.detailsOk x hx).1, fun hh => Bool.noConfusion hh⟩) d' hd'
    · rw [← hlo]
      exact hl1
    · rw [← huc]
      exact hu1
    · show d'.detail_id < db.nextId + 1
      rw [← hid]
      omega
    · show d'.created_at < db.nextId + 1
      rw [← hcr]
      omega
    · rw [← hsk, ← hwd]
      exact hasKey_stocks_congr hmapkeys hk1
  · exact pairwise_map_transfer
      (directDeplete_map_created l.sku_id l.warehouse_id none false l.locked_qty db.details)
      hinv.createdPW
  · exact pairwise_map_transfer
      (directDeplete_map_ids l.sku_id l.warehouse_id none false l.locked_qty db.details)
      hinv.idsPW
  · intro y hy
    obtain ⟨x, hx, hxy⟩ := mem_lKey_of_mem_setLockStatus hy
    obtain ⟨hno, hsk, hwd, hlq⟩ := lKey_fields hxy
    obtain ⟨h1, h2, hk⟩ := hinv.locksOk x hx
    refine ⟨hlq ▸ h1, ?_, ?_⟩
    · show y.lock_no < db.nextId + 1
      rw [← hno]
      omega
    · rw [← hsk, ← hwd]
      exact hasKey_stocks_congr hmapkeys hk
  · exact pairwise_map_transfer (f := lKey)
      (R := fun x y => x.1 ≠ y.1)
      (setLockStatus_map_lKey db.locks l.lock_no .CONSUMED) hinv.lockNosPW

theorem consumeStep_locks_eq {db : DB} {sono : String} {l : StockLock} {st : Stock}
    (hfound : getStock db l.sku_id l.warehouse_id = some st) :
    (consumeStep sono db l).1.locks = setLockStatus db.locks l.lock_no .CONSUMED := by
  rw [consumeStep_some_eq hfound]

theorem invFull_consumeLoop {sono : String} :
    ∀ (M : List StockLock) (db : DB), InvFull db →
      (∀ l ∈ M, l ∈ db.locks ∧ l.status = LockStatus.LOCKED) →
      M.Pairwise (fun a b => a.lock_no ≠ b.lock_no) →
      InvFull (consumeLoop sono db M).1
  | [], _, hinv, _, _ => hinv
  | l :: rest, db, hinv, hM, hpw => by
    rw [List.pairwise_cons] at hpw
    have hl := hM l (List.mem_cons_self l rest)
    have hk := (hinv.locksOk l hl.1).2.2
    obtain ⟨st, hfound⟩ := Option.isSome_iff_exists.mp (getStock_isSome_of_hasKey hk)
    rw [consumeLoop]
    refine invFull_consumeLoop rest _ (invFull_consume_core hinv hl.1 hl.2 hfound) ?_ hpw.2
    intro x hx
    refine ⟨?_, (hM x (List.mem_cons_of_mem l hx)).2⟩
    rw [consumeStep_locks_eq hfound]
    exact mem_setLockStatus_of_ne (hM x (List.mem_cons_of_mem l hx)).1
      (fun heq => hpw.1 x hx heq.symm)


/-! ### The invariant holds on all reachable states -/

theorem stock_out_fst (db : DB) (req : StockOutRequest) :
    (stock_out db req).1 =
      (stockOutLoop req.warehouse_id req.source_type req.source_order_no db req.items).1 := by
  cases hl : (stockOutLoop req.warehouse_id req.source_type req.source_order_no db
      req.items).1 with
  | error e => simp [stock_out, hl]
  | ok x => simp [stock_out, hl]

theorem lock_stock_fst (db : DB) (req : StockLockRequest) :
    (lock_stock db req).1 =
      lockLoop req.warehouse_id req.source_type req.source_order_no db req.items := by
  cases hl : lockLoop req.warehouse_id req.source_type req.source_order_no db req.items with
  | error e => simp [lock_stock, hl]
  | ok x => simp [lock_stock, hl]

theorem invFull_initDB : InvFull initDB :=
  ⟨List.Pairwise.nil, (fun _ h => nomatch h), (fun _ h => nomatch h), List.Pairwise.nil,
   List.Pairwise.nil, (fun _ h => nomatch h), List.Pairwise.nil⟩

theorem invFull_commitOf {db : DB} {op : Op} (hinv : InvFull db) (hval : ValidOp op) :
    InvFull (commitOf db op) := by
  cases op with
  | opIn req =>
    exact invFull_stock_in hinv hval.2
  | opOut req =>
    rcases hout : (stock_out db req).1 with e | x
    · have hco : commitOf db (.opOut req) = db := by
        simp only [commitOf, runOp, hout]
        rfl
      rw [hco]
      exact hinv
    · have hco : commitOf db (.opOut req) = x.1 := by
        simp only [commitOf, runOp, hout]
        rfl
      rw [hco]
      rw [stock_out_fst] at hout
      exact invFull_stockOutLoop req.items db hinv hval.2 x hout
  | opLock req =>
    rcases hout : (lock_stock db req).1 with e | db1
    · have hco : commitOf db (.opLock req) = db := by
        simp only [commitOf, runOp, hout]
      rw [hco]
      exact hinv
    · have hco : commitOf db (.opLock req) = db1 := by
        simp only [commitOf, runOp, hout]
      rw [hco]
      rw [lock_stock_fst] at hout
      exact invFull_lockLoop req.items db hinv hval.2 db1 hout
  | opUnlock req =>
    rcases hout : (unlock_stock db req).1 with e | x
    · have hco : commitOf db (.opUnlock req) = db := by
        simp only [commitOf, runOp, hout]
        rfl
      rw [hco]
      exact hinv
    · have hco : commitOf db (.opUnlock req) = x.1 := by
        simp only [commitOf, runOp, hout]
        rfl
      rw [hco]
      by_cases hsel : (!pyTruthyList req.lock_nos && !pyTruthyStr req.source_order_no) = true
      · rw [unlock_stock, if_pos hsel] at hout
        cases hout
      rw [unlock_stock, if_neg hsel] at hout
      by_cases hemp : (db.locks.filter (unlockMatchFilter req)).isEmpty = true
      · rw [if_pos hemp] at hout
        cases hout
      rw [if_neg hemp] at hout
      cases hout
      refine invFull_unlockLoop _ db hinv ?_ ?_
      · intro l hl
        refine ⟨List.mem_of_mem_filter hl, ?_⟩
        have := List.of_mem_filter hl
        simp only [unlockMatchFilter, Bool.and_eq_true, decide_eq_true_eq] at this
        exact this.1
      · exact List.Pairwise.filter _ hinv.lockNosPW
  | opConsume sono =>
    rcases hout : (consume_locked_stock db sono).1 with e | x
    · have hco : commitOf db (.opConsume sono) = db := by
        simp only [commitOf, runOp, hout]
        rfl
      rw [hco]
      exact hinv
    · have hco : commitOf db (.opConsume sono) = x.1 := by
        simp only [commitOf, runOp, hout]
        rfl
      rw [hco]
      by_cases hemp : (db.locks.filter (fun l =>
          l.source_order_no == sono && decide (l.status = LockStatus.LOCKED))).isEmpty = true
      · rw [consume_locked_stock, if_pos hemp] at hout
        cases hout
      rw [consume_locked_stock, if_neg hemp] at hout
      cases hout
      refine invFull_consumeLoop _ db hinv ?_ ?_
      · intro l hl
        refine ⟨List.mem_of_mem_filter hl, ?_⟩
        have := List.of_mem_filter hl
        simp only [Bool.and_eq_true, decide_eq_true_eq] at this
        exact this.2
      · exact List.Pairwise.filter _ hinv.lockNosPW

theorem invFull_of_reachable {db : DB} (h : Reachable db) : InvFull db := by
  induction h with
  | init => exact invFull_initDB
  | step op db hr hval ih => exact invFull_commitOf ih hval

theorem inv_of_invFull {db : DB} (hinv : InvFull db) : Inv db := by
  intro st hst
  obtain ⟨hav, hlk, hlq, hag, hds, _⟩ := hinv.stocksOk st hst
  exact ⟨hav, le_trans hlk hlq, hlk, hlq, hds.symm, hag⟩


/-! ### Candidate-sequence and walk shortfall lemmas -/

theorem mem_getAvailableDetails {db : DB} {sku : String} {wh : Int} {bf : Option String}
    {d : StockDetail} :
    d ∈ getAvailableDetails db sku wh bf ↔
      d ∈ db.details ∧ detailCandidate sku wh bf d = true := by
  rw [getAvailableDetails, (List.perm_insertionSort createdLE _).mem_iff]
  exact List.mem_filter

theorem sorted_getAvailableDetails (db : DB) (sku : String) (wh : Int) (bf : Option String) :
    List.Sorted createdLE (getAvailableDetails db sku wh bf) :=
  List.sorted_insertionSort createdLE _

theorem sum_qty_getAvailableDetails (db : DB) (sku : String) (wh : Int) (bf : Option String) :
    ((getAvailableDetails db sku wh bf).map (fun d => d.qty)).sum =
      availSum db.details sku wh bf :=
  ((List.perm_insertionSort createdLE
    (db.details.filter (detailCandidate sku wh bf))).map (fun d => d.qty)).sum_eq

theorem depleteWalk_rem_ge (u : Bool) :
    ∀ (r : ℚ) (cs : List StockDetail),
      (∀ d ∈ cs, 0 ≤ d.qty ∧ (u = true → d.locked_qty = 0)) →
      r - (cs.map (fun d => d.qty)).sum ≤ (depleteWalk u r cs).2.1
  | r, [], _ => by simp [depleteWalk]
  | r, d :: cs, h => by
    by_cases hr : 0 < r
    · rw [depleteWalk_cons_pos cs hr]
      have hded : walkDeduct u d r ≤ d.qty :=
        walkDeduct_le_qty (h d (List.mem_cons_self d cs)).2
      have hrec := depleteWalk_rem_ge u (r - walkDeduct u d r) cs
        (fun x hx => h x (List.mem_cons_of_mem d hx))
      simp only [List.map_cons, List.sum_cons]
      linarith
    · rw [depleteWalk_cons_neg cs hr]
      have hq := (h d (List.mem_cons_self d cs)).1
      have hS : 0 ≤ (cs.map (fun d => d.qty)).sum := by
        refine List.sum_nonneg (fun q hq' => ?_)
        obtain ⟨x, hx, rfl⟩ := List.mem_map.mp hq'
        exact (h x (List.mem_cons_of_mem d hx)).1
      simp only [List.map_cons, List.sum_cons]
      linarith

/-- If the candidate rows cannot together supply the requested quantity, the
walk ends with a positive shortfall. -/
theorem depleteWalk_shortfall {db : DB} {sku : String} {wh : Int} {bf : Option String}
    {u : Bool} {r : ℚ} (hdet : ∀ d ∈ db.details, 0 ≤ d.qty ∧ (u = true → d.locked_qty = 0))
    (hshort : availSum db.details sku wh bf < r) :
    0 < (depleteWalk u r (getAvailableDetails db sku wh bf)).2.1 := by
  have h := depleteWalk_rem_ge u r (getAvailableDetails db sku wh bf)
    (fun d hd => hdet d (mem_getAvailableDetails.mp hd).1)
  rw [sum_qty_getAvailableDetails] at h
  linarith

/-! ### Lock status bookkeeping across the loops -/

theorem mem_setLockStatus_cases {ls : List StockLock} {n : Nat} {s : LockStatus}
    {y : StockLock} (hy : y ∈ setLockStatus ls n s) :
    ∃ x ∈ ls, (x.lock_no = n ∧ y = { x with status := s }) ∨ (x.lock_no ≠ n ∧ y = x) := by
  simp only [setLockStatus, List.mem_map] at hy
  obtain ⟨x, hx, hxy⟩ := hy
  by_cases hc : (x.lock_no == n) = true
  · rw [if_pos hc] at hxy
    exact ⟨x, hx, Or.inl ⟨by simpa using hc, hxy.symm⟩⟩
  · rw [if_neg hc] at hxy
    exact ⟨x, hx, Or.inr ⟨by simpa using hc, hxy.symm⟩⟩

theorem unlockLoop_no_locked_left (req : StockUnlockRequest) :
    ∀ (M : List StockLock) (db : DB),
      ∀ y ∈ (unlockLoop db M).1.locks, unlockMatchFilter req y = true →
        y ∈ db.locks ∧ y ∉ M
  | [], db, y, hy, hf => ⟨hy, fun h => nomatch h⟩
  | l :: rest, db, y, hy, hf => by
    have hstep : (unlockLoop db (l :: rest)).1 =
        (unlockLoop (match getStock db l.sku_id l.warehouse_id with
          | some st =>
            { stocks := (setStock db
                { st with
                  locked_qty := st.locked_qty - l.locked_qty
                  available_qty := st.qty - (st.locked_qty - l.locked_qty) }).stocks
              details := db.details
              moves := db.moves ++ [⟨db.nextId, l.sku_id, l.warehouse_id, .UNLOCK,
                l.locked_qty, st.locked_qty, st.locked_qty - l.locked_qty, 0, l.source_type,
                some l.source_order_no, none⟩]
              locks := setLockStatus db.locks l.lock_no .UNLOCKED
              nextId := db.nextId + 1 }
          | none => { db with locks := setLockStatus db.locks l.lock_no .UNLOCKED }) rest).1 := by
      rcases hfound : getStock db l.sku_id l.warehouse_id with _ | st
      · simp only [unlockLoop, hfound]
      · rw [unlockLoop_cons_some rest hfound]
    rw [hstep] at hy
    have hdb2locks : (match getStock db l.sku_id l.warehouse_id with
        | some st =>
          { stocks := (setStock db
              { st with
                locked_qty := st.locked_qty - l.locked_qty
                available_qty := st.qty - (st.locked_qty - l.locked_qty) }).stocks
            details := db.details
            moves := db.moves ++ [⟨db.nextId, l.sku_id, l.warehouse_id, .UNLOCK,
              l.locked_qty, st.locked_qty, st.locked_qty - l.locked_qty, 0, l.source_type,
              some l.source_order_no, none⟩]
            locks := setLockStatus db.locks l.lock_no .UNLOCKED
            nextId := db.nextId + 1 }
        | none => { db with locks := setLockStatus db.locks l.lock_no .UNLOCKED } :
        DB).locks = setLockStatus db.locks l.lock_no .UNLOCKED := by
      rcases getStock db l.sku_id l.warehouse_id with _ | st <;> rfl
    have hIH := unlockLoop_no_locked_left req rest _ y hy hf
    rw [hdb2locks] at hIH
    obtain ⟨hy2, hnotrest⟩ := hIH
    obtain ⟨x, hx, hcase⟩ := mem_setLockStatus_cases hy2
    rcases hcase with ⟨hno, rfl⟩ | ⟨hno, rfl⟩
    · exfalso
      simp only [unlockMatchFilter, Bool.and_eq_true, decide_eq_true_eq] at hf
      exact absurd hf.1 (by simp)
    · refine ⟨hx, fun hmem => ?_⟩
      rcases List.mem_cons.mp hmem with rfl | hmem'
      · exact hno rfl
      · exact hnotrest hmem'

theorem consumeLoop_no_locked_left (sono : String) :
    ∀ (M : List StockLock) (db : DB), InvFull db →
      (∀ l ∈ M, l ∈ db.locks ∧ l.status = LockStatus.LOCKED) →
      M.Pairwise (fun a b => a.lock_no ≠ b.lock_no) →
      ∀ y ∈ (consumeLoop sono db M).1.locks,
        (y.source_order_no == sono && decide (y.status = LockStatus.LOCKED)) = true →
        y ∈ db.locks ∧ y ∉ M
  | [], db, _, _, _, y, hy, hf => ⟨hy, fun h => nomatch h⟩
  | l :: rest, db, hinv, hM, hpw, y, hy, hf => by
    rw [List.pairwise_cons] at hpw
    have hl := hM l (List.mem_cons_self l rest)
    have hk := (hinv.locksOk l hl.1).2.2
    obtain ⟨st, hfound⟩ := Option.isSome_iff_exists.mp (getStock_isSome_of_hasKey hk)
    rw [consumeLoop] at hy
    have hIH := consumeLoop_no_locked_left sono rest _
      (invFull_consume_core hinv hl.1 hl.2 hfound)
      (fun x hx => ⟨by
        rw [consumeStep_locks_eq hfound]
        exact mem_setLockStatus_of_ne (hM x (List.mem_cons_of_mem l hx)).1
          (fun heq => hpw.1 x hx heq.symm), (hM x (List.mem_cons_of_mem l hx)).2⟩)
      hpw.2 y hy hf
    obtain ⟨hy2, hnotrest⟩ := hIH
    rw [consumeStep_locks_eq hfound] at hy2
    obtain ⟨x, hx, hcase⟩ := mem_setLockStatus_cases hy2
    rcases hcase with ⟨hno, rfl⟩ | ⟨hno, rfl⟩
    · exfalso
      simp only [Bool.and_eq_true, decide_eq_true_eq] at hf
      exact absurd hf.2 (by simp)
    · refine ⟨hx, fun hmem => ?_⟩
      rcases List.mem_cons.mp hmem with rfl | hmem'
      · exact hno rfl
      · exact hnotrest hmem'


/-! ### Exact batch depletion accounting for `consume_locked_stock` -/

theorem consumeStep_detailSum {db : DB} {sono : String} {l : StockLock} {st : Stock}
    (hinv : InvFull db) (hl : l ∈ db.locks) (hs : l.status = LockStatus.LOCKED)
    (hfound : getStock db l.sku_id l.warehouse_id = some st) (sku : String) (wh : Int) :
    detailSum (consumeStep sono db l).1.details sku wh =
      detailSum db.details sku wh -
        (if l.sku_id = sku ∧ l.warehouse_id = wh then l.locked_qty else 0) := by
  obtain ⟨hmem, hsku, hwh⟩ := getStock_eq_some hfound
  obtain ⟨hav0, hlk0, hlq0, hag0, hds0, hls0⟩ := hinv.stocksOk st hmem
  have hLpos : 0 < l.locked_qty := (hinv.locksOk l hl).1
  have hpos : ∀ x ∈ db.locks, 0 < x.locked_qty := fun x hx => (hinv.locksOk x hx).1
  have hge' : l.locked_qty ≤ st.locked_qty := by
    rw [hls0, hsku, hwh]
    exact le_lockSum_of_mem hpos hl hs
  have hlkz : ∀ d ∈ db.details, false = true → d.locked_qty = 0 :=
    fun d _ hh => Bool.noConfusion hh
  have hqnn : ∀ d ∈ db.details, 0 ≤ d.qty := fun d hd => (hinv.detailsOk d hd).1
  have hdetails : (consumeStep sono db l).1.details =
      (directDeplete l.sku_id l.warehouse_id none false l.locked_qty db.details).1 := by
    rw [consumeStep_some_eq hfound]
    show writeBackDetails db.details _ = _
    rw [getAvailableDetails_eq_filter hinv.createdPW]
    exact (walk_writeBack_eq_direct l.sku_id l.warehouse_id none false l.locked_qty
      db.details hinv.idsPW).1
  have hsupply : l.locked_qty ≤ availSum db.details l.sku_id l.warehouse_id none := by
    rw [availSum_none_eq_detailSum hqnn]
    calc l.locked_qty ≤ st.locked_qty := hge'
      _ ≤ st.qty := hlq0
      _ = detailSum db.details l.sku_id l.warehouse_id := by rw [hds0, hsku, hwh]
  have hrem0 : (directDeplete l.sku_id l.warehouse_id none false l.locked_qty
      db.details).2.1 = 0 :=
    directDeplete_rem_zero l.sku_id l.warehouse_id none false l.locked_qty db.details
      (le_of_lt hLpos) hsupply hlkz
  rw [hdetails]
  by_cases hkey : l.sku_id = sku ∧ l.warehouse_id = wh
  · rw [if_pos hkey, ← hkey.1, ← hkey.2, directDeplete_detailSum, hrem0]
    ring
  · rw [if_neg hkey, directDeplete_detailSum_other]
    · rw [sub_zero]
    · rintro ⟨h1, h2⟩
      exact hkey ⟨h1.symm, h2.symm⟩

theorem consumeLoop_detailSum (sono : String) :
    ∀ (M : List StockLock) (db : DB), InvFull db →
      (∀ l ∈ M, l ∈ db.locks ∧ l.status = LockStatus.LOCKED) →
      M.Pairwise (fun a b => a.lock_no ≠ b.lock_no) → ∀ (sku : String) (wh : Int),
      detailSum (consumeLoop sono db M).1.details sku wh =
        detailSum db.details sku wh -
          ((M.filter (fun l => l.sku_id == sku && l.warehouse_id == wh)).map
            (fun l => l.locked_qty)).sum
  | [], db, _, _, _, sku, wh => by simp [consumeLoop]
  | l :: rest, db, hinv, hM, hpw, sku, wh => by
    rw [List.pairwise_cons] at hpw
    have hl := hM l (List.mem_cons_self l rest)
    have hk := (hinv.locksOk l hl.1).2.2
    obtain ⟨st, hfound⟩ := Option.isSome_iff_exists.mp (getStock_isSome_of_hasKey hk)
    rw [consumeLoop]
    have hrec := consumeLoop_detailSum sono rest (consumeStep sono db l).1
      (invFull_consume_core hinv hl.1 hl.2 hfound)
      (fun x hx => ⟨by
        rw [consumeStep_locks_eq hfound]
        exact mem_setLockStatus_of_ne (hM x (List.mem_cons_of_mem l hx)).1
          (fun heq => hpw.1 x hx heq.symm), (hM x (List.mem_cons_of_mem l hx)).2⟩)
      hpw.2 sku wh
    show detailSum (consumeLoop sono (consumeStep sono db l).1 rest).1.details sku wh = _
    rw [hrec, consumeStep_detailSum hinv hl.1 hl.2 hfound]
    rw [List.filter_cons]
    by_cases hkey : l.sku_id = sku ∧ l.warehouse_id = wh
    · have hb : (l.sku_id == sku && l.warehouse_id == wh) = true := by
        simp [hkey.1, hkey.2]
      rw [if_pos hb, if_pos hkey]
      simp only [List.map_cons, List.sum_cons]
      ring
    · have hb' : ¬((l.sku_id == sku && l.warehouse_id == wh) = true) := by
        rcases not_and_or.mp hkey with h | h <;> simp [h]
      rw [if_neg hb', if_neg hkey]
      ring

/-! ### Trace lemmas: publishes and commits -/

theorem stockInLoop_trace (wh : Int) (stp sono : String) :
    ∀ (items : List StockInItem) (db : DB),
      (stockInLoop wh stp sono db items).2 =
        (stockInLoop wh stp sono db items).2.filter (fun e => e.isPublish) ∧
      ∀ e ∈ (stockInLoop wh stp sono db items).2, e.isPublish = true
  | [], _ => ⟨rfl, fun _ h => nomatch h⟩
  | item :: rest, db => by
    rw [stockInLoop]
    have ih := stockInLoop_trace wh stp sono rest
      (stockInStep wh stp sono db item).1
    constructor
    · show Ev.publish _ :: _ = List.filter _ (Ev.publish _ :: _)
      rw [List.filter_cons]
      rw [if_pos (by simp [Ev.isPublish])]
      exact congrArg _ ih.1
    · intro e he
      rcases List.mem_cons.mp he with rfl | hmem
      · rfl
      · exact ih.2 e hmem

theorem stockOutLoop_trace (wh : Int) (stp sono : String) :
    ∀ (items : List StockOutItem) (db : DB),
      ∀ e ∈ (stockOutLoop wh stp sono db items).2, e.isPublish = true
  | [], _, e, he => nomatch he
  | item :: rest, db, e, he => by
    rw [stockOutLoop] at he
    rcases hstep : stockOutStep wh stp sono db item with err | x
    · rw [hstep] at he
      cases he
    · obtain ⟨db1, c, pe⟩ := x
      rw [hstep] at he
      rcases hrest : (stockOutLoop wh stp sono db1 rest).1 with e' | res'
      · simp only [hrest] at he
        rcases List.mem_cons.mp he with rfl | hmem
        · rfl
        · exact stockOutLoop_trace wh stp sono rest db1 e hmem
      · simp only [hrest] at he
        rcases List.mem_cons.mp he with rfl | hmem
        · rfl
        · exact stockOutLoop_trace wh stp sono rest db1 e hmem

theorem stock_in_trace (db : DB) (req : StockInRequest) :
    ∃ ps, (stock_in db req).2 = ps ++ [Ev.commit] ∧ ∀ e ∈ ps, e.isPublish = true :=
  ⟨(stockInLoop req.warehouse_id req.source_type req.source_order_no db req.items).2,
   rfl, (stockInLoop_trace req.warehouse_id req.source_type req.source_order_no
     req.items db).2⟩

theorem stock_out_error_no_commit {db : DB} {req : StockOutRequest} {e : BizError}
    (herr : (stock_out db req).1 = .error e) :
    Ev.commit ∉ (stock_out db req).2 := by
  intro hmem
  rcases hl : (stockOutLoop req.warehouse_id req.source_type req.source_order_no db
      req.items).1 with e' | x
  · have htr : (stock_out db req).2 =
        (stockOutLoop req.warehouse_id req.source_type req.source_order_no db req.items).2 := by
      simp [stock_out, hl]
    rw [htr] at hmem
    have := stockOutLoop_trace req.warehouse_id req.source_type req.source_order_no
      req.items db Ev.commit hmem
    simp [Ev.isPublish] at this
  · rw [stock_out_fst, hl] at herr
    cases herr


/-! ### Movement and notification counting -/

theorem moveCount_append (ms : List StockMove) (m : StockMove) (sku : String) (wh : Int) :
    moveCount (ms ++ [m]) sku wh = moveCount ms sku wh +
      (if m.sku_id = sku ∧ m.warehouse_id = wh then 1 else 0) := by
  by_cases hc : m.sku_id = sku ∧ m.warehouse_id = wh
  · simp [moveCount, List.filter_append, hc.1, hc.2, hc]
  · have hb : (m.sku_id == sku && m.warehouse_id == wh) = false := by
      rcases not_and_or.mp hc with h | h <;> simp [h]
    simp [moveCount, List.filter_append, hb, hc]

theorem pubCount_cons_publish (p : PubEvent) (tr : List Ev) (sku : String) (wh : Int) :
    pubCount (Ev.publish p :: tr) sku wh =
      (if p.sku_id = sku ∧ p.warehouse_id = wh then 1 else 0) + pubCount tr sku wh := by
  by_cases hc : p.sku_id = sku ∧ p.warehouse_id = wh
  · simp [pubCount, List.filter_cons, hc.1, hc.2, hc]
    omega
  · have hb : (p.sku_id == sku && p.warehouse_id == wh) = false := by
      rcases not_and_or.mp hc with h | h <;> simp [h]
    simp [pubCount, List.filter_cons, hb, hc]

theorem pubCount_append_commit (tr : List Ev) (sku : String) (wh : Int) :
    pubCount (tr ++ [Ev.commit]) sku wh = pubCount tr sku wh := by
  simp [pubCount, List.filter_append]

theorem stockInStep_moves (wh : Int) (stp sono : String) (db : DB) (item : StockInItem) :
    ∃ m : StockMove, (stockInStep wh stp sono db item).1.moves = db.moves ++ [m] ∧
      m.sku_id = item.sku_id ∧ m.warehouse_id = wh := by
  rcases hfound : getStock db item.sku_id wh with _ | st0
  · rw [stockInStep_none hfound]
    exact ⟨_, rfl, rfl, rfl⟩
  · rw [stockInStep_some hfound]
    exact ⟨_, rfl, rfl, rfl⟩

theorem stockInStep_event (wh : Int) (stp sono : String) (db : DB) (item : StockInItem) :
    (stockInStep wh stp sono db item).2.sku_id = item.sku_id ∧
    (stockInStep wh stp sono db item).2.warehouse_id = wh := by
  rcases hfound : getStock db item.sku_id wh with _ | st0
  · rw [stockInStep_none hfound]
    exact ⟨rfl, rfl⟩
  · rw [stockInStep_some hfound]
    exact ⟨rfl, rfl⟩

theorem stockInLoop_moveCount (wh : Int) (stp sono : String) (sku : String) (whq : Int) :
    ∀ (items : List StockInItem) (db : DB),
      moveCount (stockInLoop wh stp sono db items).1.moves sku whq =
        moveCount db.moves sku whq +
          (items.filter (fun it => it.sku_id == sku && wh == whq)).length
  | [], db => by simp [stockInLoop]
  | item :: rest, db => by
    rw [stockInLoop]
    have ih := stockInLoop_moveCount wh stp sono sku whq rest (stockInStep wh stp sono db item).1
    show moveCount (stockInLoop wh stp sono (stockInStep wh stp sono db item).1 rest).1.moves
        sku whq = _
    rw [ih]
    obtain ⟨m, hm, hmsku, hmwh⟩ := stockInStep_moves wh stp sono db item
    rw [hm, moveCount_append, List.filter_cons]
    by_cases hc : item.sku_id = sku ∧ wh = whq
    · have hb : (item.sku_id == sku && wh == whq) = true := by simp [hc.1, hc.2]
      rw [if_pos hb, if_pos (by rw [hmsku, hmwh]; exact hc)]
      simp only [List.length_cons]
      omega
    · have hb : ¬((item.sku_id == sku && wh == whq) = true) := by
        rcases not_and_or.mp hc with h | h <;> simp [h]
      rw [if_neg hb, if_neg (by rw [hmsku, hmwh]; exact hc)]
      omega

theorem stockInLoop_pubCount (wh : Int) (stp sono : String) (sku : String) (whq : Int) :
    ∀ (items : List StockInItem) (db : DB),
      pubCount (stockInLoop wh stp sono db items).2 sku whq =
        (items.filter (fun it => it.sku_id == sku && wh == whq)).length
  | [], _ => rfl
  | item :: rest, db => by
    rw [stockInLoop]
    have ih := stockInLoop_pubCount wh stp sono sku whq rest (stockInStep wh stp sono db item).1
    show pubCount (Ev.publish (stockInStep wh stp sono db item).2 ::
      (stockInLoop wh stp sono (stockInStep wh stp sono db item).1 rest).2) sku whq = _
    rw [pubCount_cons_publish, ih, List.filter_cons]
    obtain ⟨hesku, hewh⟩ := stockInStep_event wh stp sono db item
    by_cases hc : item.sku_id = sku ∧ wh = whq
    · have hb : (item.sku_id == sku && wh == whq) = true := by simp [hc.1, hc.2]
      rw [if_pos hb, if_pos (by rw [hesku, hewh]; exact hc)]
      simp only [List.length_cons]
      omega
    · have hb : ¬((item.sku_id == sku && wh == whq) = true) := by
        rcases not_and_or.mp hc with h | h <;> simp [h]
      rw [if_neg hb, if_neg (by rw [hesku, hewh]; exact hc)]
      omega

theorem lock_stock_no_publish (db : DB) (req : StockLockRequest) :
    ∀ e ∈ (lock_stock db req).2, e = Ev.commit := by
  intro e he
  rcases hl : lockLoop req.warehouse_id req.source_type req.source_order_no db req.items
    with err | db1
  · simp only [lock_stock, hl] at he
    cases he
  · simp only [lock_stock, hl] at he
    rcases List.mem_cons.mp he with rfl | hmem
    · rfl
    · cases hmem

theorem unlock_stock_no_publish (db : DB) (req : StockUnlockRequest) :
    ∀ e ∈ (unlock_stock db req).2, e = Ev.commit := by
  intro e he
  by_cases hsel : (!pyTruthyList req.lock_nos && !pyTruthyStr req.source_order_no) = true
  · rw [unlock_stock, if_pos hsel] at he
    cases he
  rw [unlock_stock, if_neg hsel] at he
  by_cases hemp : (db.locks.filter (unlockMatchFilter req)).isEmpty = true
  · rw [if_pos hemp] at he
    cases he
  rw [if_neg hemp] at he
  rcases List.mem_cons.mp he with rfl | hmem
  · rfl
  · cases hmem

/-! ### Committed-state helpers -/

theorem commitOf_opOut_error {db : DB} {req : StockOutRequest} {e : BizError}
    (h : (stock_out db req).1 = .error e) : commitOf db (.opOut req) = db := by
  simp only [commitOf, runOp, h]
  rfl

theorem commitOf_opOut_ok {db : DB} {req : StockOutRequest} {x : DB × ℚ}
    (h : (stock_out db req).1 = .ok x) : commitOf db (.opOut req) = x.1 := by
  simp only [commitOf, runOp, h]
  rfl

theorem commitOf_opUnlock_error {db : DB} {req : StockUnlockRequest} {e : BizError}
    (h : (unlock_stock db req).1 = .error e) : commitOf db (.opUnlock req) = db := by
  simp only [commitOf, runOp, h]
  rfl

theorem commitOf_opUnlock_ok {db : DB} {req : StockUnlockRequest} {x : DB × Nat}
    (h : (unlock_stock db req).1 = .ok x) : commitOf db (.opUnlock req) = x.1 := by
  simp only [commitOf, runOp, h]
  rfl

theorem commitOf_opConsume_error {db : DB} {sono : String} {e : BizError}
    (h : (consume_locked_stock db sono).1 = .error e) : commitOf db (.opConsume sono) = db := by
  simp only [commitOf, runOp, h]
  rfl

theorem commitOf_opConsume_ok {db : DB} {sono : String} {x : DB × ℚ}
    (h : (consume_locked_stock db sono).1 = .ok x) : commitOf db (.opConsume sono) = x.1 := by
  simp only [commitOf, runOp, h]
  rfl


/-! ### Evaluation of the concrete executions -/

theorem bn_str_zero : "BN" ++ toString (0 : Nat) = "BN0" := rfl

theorem bn_str_one : "BN" ++ toString (1 : Nat) = "BN1" := rfl

theorem stock_in_A100_eval :
    stock_in initDB reqA100 = (dbA1c, [Ev.publish pubA100, Ev.commit]) := by
  norm_num [stock_in, stockInLoop, stockInStep, reqA100, initDB, getStock, setStock,
    pyTruthyStr, dbA1c, pubA100, bn_str_zero]

theorem commitOf_opIn_fst (db : DB) (req : StockInRequest) :
    commitOf db (.opIn req) = (stock_in db req).1 := rfl

theorem dbA1_eval : dbA1 = dbA1c := by
  rw [dbA1, commitOf_opIn_fst, stock_in_A100_eval]

theorem stock_in_A50_eval :
    stock_in dbA1c reqA50 =
      (dbA2c, [Ev.publish ⟨"A", 1, .IN, 50, 100, 150, "PURCHASE", some "PO2"⟩, Ev.commit]) := by
  norm_num [stock_in, stockInLoop, stockInStep, reqA50, dbA1c, getStock, setStock,
    pyTruthyStr, dbA2c, bn_str_one]

theorem dbA2_eval : dbA2 = dbA2c := by
  rw [dbA2, dbA1_eval, commitOf_opIn_fst, stock_in_A50_eval]

theorem lock_eval : lock_stock dbA1c reqLock5 = (.ok dbLc, [Ev.commit]) := by
  norm_num [lock_stock, lockLoop, lockStep, reqLock5, dbA1c, getStock, setStock, dbLc]

theorem dbL_eval : dbL = dbLc := by
  rw [dbL, dbA1_eval]
  have h := lock_eval
  simp [commitOf, runOp, h]

theorem consume_eval :
    consume_locked_stock dbLc "O1" =
      (.ok (dbCc, 50),
       [Ev.publish ⟨"A", 1, .OUT, 5, 100, 95, "SALE", some "O1"⟩, Ev.commit]) := by
  norm_num [consume_locked_stock, consumeLoop, consumeStep, dbLc, dbCc, getStock,
    getAvailableDetails, detailCandidate, pyTruthyStr, List.insertionSort,
    List.orderedInsert, depleteWalk, walkDeduct, min_def, writeBackDetails,
    setLockStatus, setStock]

theorem dbC_eval : dbC = dbCc := by
  rw [dbC, dbL_eval]
  have h := consume_eval
  simp [commitOf, runOp, h, Except.map]

theorem consume_dbL_fst : (consume_locked_stock dbL "O1").1 = .ok (dbCc, 50) := by
  rw [dbL_eval, consume_eval]

theorem stock_in_dup_eval :
    stock_in initDB reqDup =
      (dbDupc, [Ev.publish ⟨"A", 1, .IN, 1, 0, 1, "PURCHASE", some "PO3"⟩,
                Ev.publish ⟨"A", 1, .IN, 3, 1, 4, "PURCHASE", some "PO3"⟩, Ev.commit]) := by
  norm_num [stock_in, stockInLoop, stockInStep, reqDup, initDB, getStock, setStock,
    pyTruthyStr, dbDupc, bn_str_zero, bn_str_one]

theorem lock_dbA1_eval : lock_stock dbA1 reqLock5 = (.ok dbLc, [Ev.commit]) := by
  rw [dbA1_eval]
  exact lock_eval

/-! ### Result-shape helpers for the top-level operations -/

theorem unlock_fst_invalid {db : DB} {req : StockUnlockRequest}
    (h : (!pyTruthyList req.lock_nos && !pyTruthyStr req.source_order_no) = true) :
    (unlock_stock db req).1 = .error .INVALID_REQUEST := by
  simp only [unlock_stock]
  rw [if_pos h]

theorem unlock_fst_notFound {db : DB} {req : StockUnlockRequest}
    (hsel : ¬(!pyTruthyList req.lock_nos && !pyTruthyStr req.source_order_no) = true)
    (hemp : (db.locks.filter (unlockMatchFilter req)).isEmpty = true) :
    (unlock_stock db req).1 = .error .LOCK_NOT_FOUND := by
  simp only [unlock_stock]
  rw [if_neg hsel, if_pos hemp]

theorem unlock_fst_ok {db : DB} {req : StockUnlockRequest}
    (hsel : ¬(!pyTruthyList req.lock_nos && !pyTruthyStr req.source_order_no) = true)
    (hemp : ¬(db.locks.filter (unlockMatchFilter req)).isEmpty = true) :
    (unlock_stock db req).1 =
      .ok (unlockLoop db (db.locks.filter (unlockMatchFilter req))) := by
  simp only [unlock_stock]
  rw [if_neg hsel, if_neg hemp]

theorem consume_fst_err {db : DB} {sono : String}
    (hemp : (db.locks.filter (fun l => l.source_order_no == sono &&
      decide (l.status = LockStatus.LOCKED))).isEmpty = true) :
    (consume_locked_stock db sono).1 = .error .LOCK_NOT_FOUND := by
  simp only [consume_locked_stock]
  rw [if_pos hemp]

theorem consume_fst_ok {db : DB} {sono : String}
    (hemp : ¬(db.locks.filter (fun l => l.source_order_no == sono &&
      decide (l.status = LockStatus.LOCKED))).isEmpty = true) :
    (consume_locked_stock db sono).1 =
      .ok ((consumeLoop sono db (db.locks.filter (fun l => l.source_order_no == sono &&
          decide (l.status = LockStatus.LOCKED)))).1,
        (consumeLoop sono db (db.locks.filter (fun l => l.source_order_no == sono &&
          decide (l.status = LockStatus.LOCKED)))).2.1) := by
  simp only [consume_locked_stock]
  rw [if_neg hemp]

theorem detailCandidate_batch {sku : String} {wh : Int} {b : String} {d : StockDetail}
    (hb : pyTruthyStr (some b) = true) (h : detailCandidate sku wh (some b) d = true) :
    d.batch_no = b := by
  simp only [detailCandidate, Bool.and_eq_true] at h
  have h2 := h.2
  rw [if_pos hb] at h2
  simpa using h2

/-! ### Validated requests and reachability of the concrete states -/

theorem validOp_A100 : ValidOp (Op.opIn reqA100) := by
  refine ⟨by simp [reqA100], ?_⟩
  intro it hit
  simp only [reqA100, List.mem_singleton] at hit
  subst hit
  norm_num

theorem validOp_lock5 : ValidOp (Op.opLock reqLock5) := by
  refine ⟨by simp [reqLock5], ?_⟩
  intro it hit
  simp only [reqLock5, List.mem_singleton] at hit
  subst hit
  norm_num

theorem reachable_dbA1 : Reachable dbA1 :=
  Reachable.step (Op.opIn reqA100) initDB Reachable.init validOp_A100

theorem reachable_dbL : Reachable dbL :=
  Reachable.step (Op.opLock reqLock5) dbA1 reachable_dbA1 validOp_lock5

/-! ### Ground facts about the concrete states -/

theorem getStock_dbA1 : getStock dbA1 "A" 1 = some ⟨"A", 1, 100, 0, 100, 10⟩ := by
  rw [dbA1_eval]
  rfl

theorem getStock_dbA2 : getStock dbA2 "A" 1 = some ⟨"A", 1, 150, 0, 150, 12⟩ := by
  rw [dbA2_eval]
  rfl

theorem getStock_dbL : getStock dbL "A" 1 = some ⟨"A", 1, 100, 5, 95, 10⟩ := by
  rw [dbL_eval]
  rfl

theorem details_dbA2_ok : ∀ d ∈ dbA2.details, 0 ≤ d.qty ∧ d.locked_qty = 0 := by
  rw [dbA2_eval]
  intro d hd
  simp only [dbA2c] at hd
  rcases List.mem_cons.mp hd with rfl | hd2
  · norm_num
  · rcases List.mem_cons.mp hd2 with rfl | hd3
    · norm_num
    · cases hd3

theorem bn1_truthy : pyTruthyStr (some "BN1") = true := rfl

theorem bn0_ne_bn1 : ("BN0" : String) ≠ "BN1" := by decide

theorem availSum_dbA2_BN1 : availSum dbA2.details "A" 1 (some "BN1") = 50 := by
  rw [dbA2_eval]
  norm_num [availSum, dbA2c, detailCandidate, List.filter_cons, List.filter_nil, bn1_truthy,
    Option.getD_some, bn0_ne_bn1]

theorem matched_dbL_unlock :
    dbL.locks.filter (unlockMatchFilter reqUnlock1) =
      [⟨1, "A", 1, 5, .LOCKED, "ORDER", "O1"⟩] := by
  rw [dbL_eval]
  rfl

theorem stock_out_big_init : (stock_out initDB reqOutBig).1 = .error .STOCK_NOT_FOUND := rfl

/-! ### The claims -/

/-- Claim C1: after every committed mutating operation — that is, in every
state reachable from the empty initial store by committed validated
operations — every stock aggregate satisfies the invariant conjunction:
available equals on-hand minus locked, on-hand and locked are nonnegative,
locked never exceeds on-hand, the key's batch-detail quantities sum to the
on-hand quantity, and the average cost is nonnegative. -/
theorem c1_invariants_hold {db : DB} (h : Reachable db) : Inv db :=
  inv_of_invFull (invFull_of_reachable h)

theorem c1_invariants_hold_witness : Inv dbA1 :=
  c1_invariants_hold reachable_dbA1

/-- Claim C2 counterexample: on the claim's own concrete input (receive 100
of `A` at unit cost 10, then 50 at 16) the code yields on-hand 150 and
average cost exactly 12 = (100*10 + 50*16)/150 — not the 13.3333 the claim
asserts. -/
theorem c2_counterexample :
    (getStock dbA2 "A" 1).map (fun st => st.qty) = some 150 ∧
    (getStock dbA2 "A" 1).map (fun st => st.avg_cost) = some 12 ∧
    (getStock dbA2 "A" 1).map (fun st => st.avg_cost) ≠ some (133333 / 10000 : ℚ) := by
  rw [dbA2_eval]
  refine ⟨rfl, rfl, ?_⟩
  norm_num [getStock, dbA2c]

/-- Claim C2 (amended): for a receive of a single item into an existing
aggregate with on-hand `n` and average cost `a`, the new on-hand is `n + q`
and the new average cost is `(n*a + q*c)/(n+q)` whenever `n + q > 0`; in
particular it is `c` when the prior on-hand was `0` and `q > 0`.  The
claim's arithmetic example is wrong: receiving 50 at 16 into 100 at 10
yields average cost 12, not 13.3333 (see the counterexample). -/
theorem c2_moving_average {db : DB} {req : StockInRequest} {item : StockInItem}
    {st0 : Stock} (hitems : req.items = [item])
    (hfound : getStock db item.sku_id req.warehouse_id = some st0) :
    ∃ st1, getStock (stock_in db req).1 item.sku_id req.warehouse_id = some st1 ∧
      st1.qty = st0.qty + item.qty ∧
      (0 < st0.qty + item.qty →
        st1.avg_cost =
          (st0.qty * st0.avg_cost + item.qty * item.unit_cost) / (st0.qty + item.qty)) ∧
      (st0.qty = 0 → 0 < item.qty → st1.avg_cost = item.unit_cost) := by
  obtain ⟨hmem, hsku, hwh⟩ := getStock_eq_some hfound
  have h1 : (stock_in db req).1 =
      (stockInStep req.warehouse_id req.source_type req.source_order_no db item).1 := by
    show (stockInLoop req.warehouse_id req.source_type req.source_order_no db req.items).1 = _
    rw [hitems]
    rfl
  have hfound' : getStock db st0.sku_id st0.warehouse_id = some st0 := by
    rw [hsku, hwh]
    exact hfound
  have hget := @getStock_setStock_self db st0 { st0 with
      qty := st0.qty + item.qty
      available_qty := st0.qty + item.qty - st0.locked_qty
      avg_cost := if 0 < st0.qty + item.qty then
          (st0.qty * st0.avg_cost + item.qty * item.unit_cost) / (st0.qty + item.qty)
        else st0.avg_cost } hfound'
  rw [h1, stockInStep_some hfound]
  refine ⟨{ st0 with
      qty := st0.qty + item.qty
      available_qty := st0.qty + item.qty - st0.locked_qty
      avg_cost := if 0 < st0.qty + item.qty then
          (st0.qty * st0.avg_cost + item.qty * item.unit_cost) / (st0.qty + item.qty)
        else st0.avg_cost }, ?_, ?_, ?_, ?_⟩
  · rw [← hsku, ← hwh]
    exact hget
  · rfl
  · intro hpos
    show (if 0 < st0.qty + item.qty then
        (st0.qty * st0.avg_cost + item.qty * item.unit_cost) / (st0.qty + item.qty)
      else st0.avg_cost) =
      (st0.qty * st0.avg_cost + item.qty * item.unit_cost) / (st0.qty + item.qty)
    rw [if_pos hpos]
  · intro hz hq
    show (if 0 < st0.qty + item.qty then
        (st0.qty * st0.avg_cost + item.qty * item.unit_cost) / (st0.qty + item.qty)
      else st0.avg_cost) = item.unit_cost
    rw [hz, zero_add, zero_mul, zero_add, if_pos hq, mul_comm, mul_div_assoc,
      div_self (ne_of_gt hq), mul_one]

theorem c2_moving_average_witness :
    ∃ st1, getStock (stock_in dbA1 reqA50).1 "A" 1 = some st1 ∧
      st1.qty = 100 + 50 ∧
      ((0 : ℚ) < 100 + 50 →
        st1.avg_cost = ((100 : ℚ) * 10 + 50 * 16) / (100 + 50)) ∧
      ((100 : ℚ) = 0 → (0 : ℚ) < 50 → st1.avg_cost = 16) :=
  @c2_moving_average dbA1 reqA50 ⟨"A", 50, 16, none⟩
    ⟨"A", 1, 100, 0, 100, 10⟩ rfl getStock_dbA1

/-- Claim C3: an issue of a single item requesting more than the aggregate's
available quantity fails with `INSUFFICIENT_STOCK` and the committed state
is exactly the prior state — aggregates, batch details, movement ledger and
lock records untouched. -/
theorem c3_insufficient_stock_unchanged {db : DB} {req : StockOutRequest}
    {item : StockOutItem} {st : Stock} (hitems : req.items = [item])
    (hfound : getStock db item.sku_id req.warehouse_id = some st)
    (hlt : st.available_qty < item.qty) :
    (stock_out db req).1 = .error .INSUFFICIENT_STOCK ∧
    commitOf db (.opOut req) = db := by
  have herr : (stock_out db req).1 = .error .INSUFFICIENT_STOCK := by
    rw [stock_out_fst, hitems, stockOutLoop, stockOutStep_err_insufficient hfound hlt]
  exact ⟨herr, commitOf_opOut_error herr⟩

theorem c3_witness :
    (stock_out dbA1 reqOutBig).1 = .error .INSUFFICIENT_STOCK ∧
    commitOf dbA1 (.opOut reqOutBig) = dbA1 :=
  @c3_insufficient_stock_unchanged dbA1 reqOutBig ⟨"A", 200, none⟩
    ⟨"A", 1, 100, 0, 100, 10⟩ rfl getStock_dbA1 (by norm_num)

/-- Claim C4: the batch walk is atomic.  (i) In `stock_out`, when the FIFO
candidates (or the named batch) cannot together supply a requested
single-item quantity, the whole operation fails with
`INSUFFICIENT_BATCH_STOCK` and the committed state is the unchanged prior
state: no partial batch depletion, no aggregate change, no movement entry.
(ii) In `consume_locked_stock` from any reachable state, a successful call
depletes, for every key, the batch-detail quantity sum by exactly the total
locked quantity of the fulfilled `LOCKED` records of that key — all batch
decrements commit together, with no silent partial walk. -/
theorem c4_batch_walk_atomic (db : DB) :
    (∀ (req : StockOutRequest) (item : StockOutItem) (st : Stock),
      req.items = [item] →
      getStock db item.sku_id req.warehouse_id = some st →
      ¬st.available_qty < item.qty →
      (∀ d ∈ db.details, 0 ≤ d.qty ∧ d.locked_qty = 0) →
      availSum db.details item.sku_id req.warehouse_id item.batch_no < item.qty →
      (stock_out db req).1 = .error .INSUFFICIENT_BATCH_STOCK ∧
        commitOf db (.opOut req) = db) ∧
    (Reachable db →
      ∀ (sono : String) (x : DB × ℚ), (consume_locked_stock db sono).1 = .ok x →
      ∀ (sku : String) (wh : Int),
        detailSum x.1.details sku wh = detailSum db.details sku wh -
          (((db.locks.filter (fun l => l.source_order_no == sono &&
              decide (l.status = LockStatus.LOCKED))).filter
              (fun l => l.sku_id == sku && l.warehouse_id == wh)).map
            (fun l => l.locked_qty)).sum) := by
  constructor
  · intro req item st hitems hfound hav hdet hshort
    have hrem : 0 < (depleteWalk true item.qty (getAvailableDetails db item.sku_id
        req.warehouse_id item.batch_no)).2.1 :=
      depleteWalk_shortfall (fun d hd => ⟨(hdet d hd).1, fun _ => (hdet d hd).2⟩) hshort
    have herr : (stock_out db req).1 = .error .INSUFFICIENT_BATCH_STOCK := by
      rw [stock_out_fst, hitems, stockOutLoop, stockOutStep_err_batch hfound hav hrem]
    exact ⟨herr, commitOf_opOut_error herr⟩
  · intro hreach sono x hok sku wh
    have hinv := invFull_of_reachable hreach
    by_cases hemp : (db.locks.filter (fun l => l.source_order_no == sono &&
        decide (l.status = LockStatus.LOCKED))).isEmpty = true
    · rw [consume_fst_err hemp] at hok
      cases hok
    · rw [consume_fst_ok hemp] at hok
      have hxe := Except.ok.inj hok
      subst hxe
      have hM : ∀ l ∈ db.locks.filter (fun l => l.source_order_no == sono &&
          decide (l.status = LockStatus.LOCKED)),
          l ∈ db.locks ∧ l.status = LockStatus.LOCKED := by
        intro l hl
        refine ⟨List.mem_of_mem_filter hl, ?_⟩
        have h2 := List.of_mem_filter hl
        simp only [Bool.and_eq_true, decide_eq_true_eq] at h2
        exact h2.2
      have hpw := hinv.lockNosPW.filter
        (fun l => l.source_order_no == sono && decide (l.status = LockStatus.LOCKED))
      exact consumeLoop_detailSum sono _ db hinv hM hpw sku wh

theorem c4_witness :
    ((stock_out dbA2 reqOutBatch).1 = .error .INSUFFICIENT_BATCH_STOCK ∧
      commitOf dbA2 (.opOut reqOutBatch) = dbA2) ∧
    detailSum dbCc.details "A" 1 = detailSum dbL.details "A" 1 -
      (((dbL.locks.filter (fun l => l.source_order_no == "O1" &&
          decide (l.status = LockStatus.LOCKED))).filter
          (fun l => l.sku_id == "A" && l.warehouse_id == 1)).map
        (fun l => l.locked_qty)).sum :=
  ⟨(c4_batch_walk_atomic dbA2).1 reqOutBatch ⟨"A", 60, some "BN1"⟩
      ⟨"A", 1, 150, 0, 150, 12⟩ rfl getStock_dbA2 (by norm_num) details_dbA2_ok
      (by norm_num [availSum_dbA2_BN1, reqOutBatch]),
   (c4_batch_walk_atomic dbL).2 reachable_dbL "O1" (dbCc, 50) consume_dbL_fst "A" 1⟩

/-- Claim C5: the depletion candidate sequence.  (i) Without a named batch
it contains exactly the key's batch details with remaining quantity greater
than 0; (ii) it is always ordered by creation time ascending (FIFO);
(iii) with a truthy named batch only details of that batch are considered;
(iv) if the named batch cannot supply a single-item request, the call fails
with `INSUFFICIENT_BATCH_STOCK`. -/
theorem c5_fifo_candidates (db : DB) (sku : String) (wh : Int) :
    (∀ d, d ∈ getAvailableDetails db sku wh none ↔
      d ∈ db.details ∧ d.sku_id = sku ∧ d.warehouse_id = wh ∧ 0 < d.qty) ∧
    (∀ bf, List.Sorted createdLE (getAvailableDetails db sku wh bf)) ∧
    (∀ b : String, pyTruthyStr (some b) = true →
      ∀ d ∈ getAvailableDetails db sku wh (some b), d.batch_no = b) ∧
    (∀ (req : StockOutRequest) (item : StockOutItem) (st : Stock) (b : String),
      req.items = [item] → item.sku_id = sku → req.warehouse_id = wh →
      item.batch_no = some b →
      getStock db sku wh = some st →
      ¬st.available_qty < item.qty →
      (∀ d ∈ db.details, 0 ≤ d.qty ∧ d.locked_qty = 0) →
      availSum db.details sku wh (some b) < item.qty →
      (stock_out db req).1 = .error .INSUFFICIENT_BATCH_STOCK) := by
  refine ⟨?_, ?_, ?_, ?_⟩
  · intro d
    rw [mem_getAvailableDetails, detailCandidate_none_eq]
    constructor
    · rintro ⟨hmem, hc⟩
      simp only [Bool.and_eq_true, beq_iff_eq, decide_eq_true_eq] at hc
      exact ⟨hmem, hc.1.1, hc.1.2, hc.2⟩
    · rintro ⟨hmem, h1, h2, h3⟩
      exact ⟨hmem, by simp [h1, h2, h3]⟩
  · intro bf
    exact sorted_getAvailableDetails db sku wh bf
  · intro b hb d hd
    exact detailCandidate_batch hb (mem_getAvailableDetails.mp hd).2
  · intro req item st b hitems hsku hwh hbno hfound hav hdet hshort
    have hrem : 0 < (depleteWalk true item.qty (getAvailableDetails db item.sku_id
        req.warehouse_id item.batch_no)).2.1 := by
      rw [hbno, hsku, hwh]
      exact depleteWalk_shortfall (fun d hd => ⟨(hdet d hd).1, fun _ => (hdet d hd).2⟩) hshort
    have hfound' : getStock db item.sku_id req.warehouse_id = some st := by
      rw [hsku, hwh]
      exact hfound
    rw [stock_out_fst, hitems, stockOutLoop, stockOutStep_err_batch hfound' hav hrem]

theorem c5_witness :
    List.Sorted createdLE (getAvailableDetails dbA2 "A" 1 none) ∧
    (stock_out dbA2 reqOutBatch70).1 = .error .INSUFFICIENT_BATCH_STOCK :=
  ⟨(c5_fifo_candidates dbA2 "A" 1).2.1 none,
   (c5_fifo_candidates dbA2 "A" 1).2.2.2 reqOutBatch70 ⟨"A", 70, some "BN1"⟩
     ⟨"A", 1, 150, 0, 150, 12⟩ "BN1" rfl rfl rfl rfl getStock_dbA2 (by norm_num)
     details_dbA2_ok (by norm_num [availSum_dbA2_BN1, reqOutBatch70])⟩

/-- Claim C6: a release (`unlock_stock`) over a single matched lock record,
from any reachable state, decrements the aggregate's locked quantity by the
released quantity, the result never goes below 0, available is recomputed
as on-hand minus the new locked quantity, and on-hand is unchanged. -/
theorem c6_unlock_decrements {db : DB} {req : StockUnlockRequest} {l : StockLock}
    {st : Stock} (hreach : Reachable db)
    (hsel : (!pyTruthyList req.lock_nos && !pyTruthyStr req.source_order_no) = false)
    (hmatch : db.locks.filter (unlockMatchFilter req) = [l])
    (hfound : getStock db l.sku_id l.warehouse_id = some st) :
    ∃ st', getStock (commitOf db (.opUnlock req)) l.sku_id l.warehouse_id = some st' ∧
      st'.locked_qty = st.locked_qty - l.locked_qty ∧
      0 ≤ st'.locked_qty ∧
      st'.available_qty = st'.qty - st'.locked_qty ∧
      st'.qty = st.qty := by
  have hinv := invFull_of_reachable hreach
  obtain ⟨hmem, hsku, hwh⟩ := getStock_eq_some hfound
  have hsel' : ¬(!pyTruthyList req.lock_nos && !pyTruthyStr req.source_order_no) = true := by
    rw [hsel]
    decide
  have hemp : ¬(db.locks.filter (unlockMatchFilter req)).isEmpty = true := by
    rw [hmatch]
    simp
  have hok := unlock_fst_ok hsel' hemp
  rw [hmatch] at hok
  have hcommit : commitOf db (.opUnlock req) = (unlockLoop db [l]).1 :=
    commitOf_opUnlock_ok hok
  have hcommit2 : commitOf db (.opUnlock req) =
      { stocks := (setStock db { st with
            locked_qty := st.locked_qty - l.locked_qty
            available_qty := st.qty - (st.locked_qty - l.locked_qty) }).stocks
        details := db.details
        moves := db.moves ++ [⟨db.nextId, l.sku_id, l.warehouse_id, .UNLOCK, l.locked_qty,
          st.locked_qty, st.locked_qty - l.locked_qty, 0, l.source_type,
          some l.source_order_no, none⟩]
        locks := setLockStatus db.locks l.lock_no .UNLOCKED
        nextId := db.nextId + 1 } := by
    rw [hcommit, unlockLoop_cons_some [] hfound]
    rfl
  have hfound' : getStock db st.sku_id st.warehouse_id = some st := by
    rw [hsku, hwh]
    exact hfound
  have hget := @getStock_setStock_self db st { st with
      locked_qty := st.locked_qty - l.locked_qty
      available_qty := st.qty - (st.locked_qty - l.locked_qty) } hfound'
  refine ⟨{ st with
      locked_qty := st.locked_qty - l.locked_qty
      available_qty := st.qty - (st.locked_qty - l.locked_qty) }, ?_, ?_, ?_, ?_, ?_⟩
  · rw [hcommit2, ← hsku, ← hwh]
    exact hget
  · rfl
  · show (0 : ℚ) ≤ st.locked_qty - l.locked_qty
    have hone : l ∈ db.locks.filter (unlockMatchFilter req) := by
      rw [hmatch]
      exact List.mem_singleton_self l
    have hmem_l : l ∈ db.locks := List.mem_of_mem_filter hone
    have hstat : l.status = LockStatus.LOCKED := by
      have hf := List.of_mem_filter hone
      simp only [unlockMatchFilter, Bool.and_eq_true, decide_eq_true_eq] at hf
      exact hf.1
    obtain ⟨hav0, hlk0, hlq0, hag0, hds0, hls0⟩ := hinv.stocksOk st hmem
    have hpos : ∀ x ∈ db.locks, 0 < x.locked_qty := fun x hx => (hinv.locksOk x hx).1
    have hge : l.locked_qty ≤ st.locked_qty := by
      rw [hls0, hsku, hwh]
      exact le_lockSum_of_mem hpos hmem_l hstat
    linarith
  · rfl
  · rfl

theorem c6_witness :
    ∃ st', getStock (commitOf dbL (.opUnlock reqUnlock1)) "A" 1 = some st' ∧
      st'.locked_qty = (5 : ℚ) - 5 ∧
      0 ≤ st'.locked_qty ∧
      st'.available_qty = st'.qty - st'.locked_qty ∧
      st'.qty = 100 :=
  @c6_unlock_decrements dbL reqUnlock1 ⟨1, "A", 1, 5, .LOCKED, "ORDER", "O1"⟩
    ⟨"A", 1, 100, 5, 95, 10⟩ reachable_dbL rfl matched_dbL_unlock getStock_dbL

/-- Claim C7 counterexample: the claim says the commit precedes every
publish; but `stock_in` publishes inside the loop, before the final commit —
the observable trace of the concrete receive is `[publish, commit]`, so
`noPublishBeforeCommit` is violated. -/
theorem c7_counterexample :
    noPublishBeforeCommit (stock_in initDB reqA100).2 = false ∧
    (stock_in initDB reqA100).2 = [Ev.publish pubA100, Ev.commit] := by
  have h := stock_in_A100_eval
  constructor
  · rw [h]
    rfl
  · rw [h]

/-- Claim C7 (amended): notifications are published inside the transaction,
before the commit, not after it: every `stock_in` trace is a block of
publish events followed by the single final commit; and an erroring
`stock_out` commits nothing (though publishes of earlier items may already
have been issued). -/
theorem c7_publish_ordering (db : DB) (req : StockInRequest) :
    (∃ ps, (stock_in db req).2 = ps ++ [Ev.commit] ∧ ∀ e ∈ ps, e.isPublish = true) ∧
    (∀ (reqO : StockOutRequest) (e : BizError),
      (stock_out db reqO).1 = .error e → Ev.commit ∉ (stock_out db reqO).2) :=
  ⟨stock_in_trace db req, fun _ _ herr => stock_out_error_no_commit herr⟩

theorem c7_publish_ordering_witness :
    (∃ ps, (stock_in initDB reqA100).2 = ps ++ [Ev.commit] ∧ ∀ e ∈ ps, e.isPublish = true) ∧
    Ev.commit ∉ (stock_out initDB reqOutBig).2 :=
  ⟨(c7_publish_ordering initDB reqA100).1,
   (c7_publish_ordering initDB reqA100).2 reqOutBig .STOCK_NOT_FOUND stock_out_big_init⟩

/-- Claim C8: release and consume match only `LOCKED` records.  (i) A
release whose selectors match no `LOCKED` record fails `LOCK_NOT_FOUND` and
commits nothing; (ii) likewise a consume with no `LOCKED` record of the
source order; (iii) after a successful release, repeating the same request
fails `LOCK_NOT_FOUND` — no double release; (iv) from a reachable state,
after a successful consume, repeating the same source order fails
`LOCK_NOT_FOUND` — no double issue. -/
theorem c8_no_double_release (db : DB) :
    (∀ req : StockUnlockRequest,
      (!pyTruthyList req.lock_nos && !pyTruthyStr req.source_order_no) = false →
      db.locks.filter (unlockMatchFilter req) = [] →
      (unlock_stock db req).1 = .error .LOCK_NOT_FOUND ∧
        commitOf db (.opUnlock req) = db) ∧
    (∀ sono : String,
      db.locks.filter (fun l => l.source_order_no == sono &&
        decide (l.status = LockStatus.LOCKED)) = [] →
      (consume_locked_stock db sono).1 = .error .LOCK_NOT_FOUND ∧
        commitOf db (.opConsume sono) = db) ∧
    (∀ (req : StockUnlockRequest) (x : DB × Nat),
      (unlock_stock db req).1 = .ok x →
      (unlock_stock (commitOf db (.opUnlock req)) req).1 = .error .LOCK_NOT_FOUND) ∧
    (Reachable db → ∀ (sono : String) (x : DB × ℚ),
      (consume_locked_stock db sono).1 = .ok x →
      (consume_locked_stock (commitOf db (.opConsume sono)) sono).1 =
        .error .LOCK_NOT_FOUND) := by
  refine ⟨?_, ?_, ?_, ?_⟩
  · intro req hsel hnone
    have hsel' : ¬(!pyTruthyList req.lock_nos && !pyTruthyStr req.source_order_no) = true := by
      rw [hsel]
      decide
    have hemp : (db.locks.filter (unlockMatchFilter req)).isEmpty = true := by
      rw [hnone]
      rfl
    have herr := unlock_fst_notFound hsel' hemp
    exact ⟨herr, commitOf_opUnlock_error herr⟩
  · intro sono hnone
    have hemp : (db.locks.filter (fun l => l.source_order_no == sono &&
        decide (l.status = LockStatus.LOCKED))).isEmpty = true := by
      rw [hnone]
      rfl
    have herr := consume_fst_err hemp
    exact ⟨herr, commitOf_opConsume_error herr⟩
  · intro req x hok
    by_cases hsel : (!pyTruthyList req.lock_nos && !pyTruthyStr req.source_order_no) = true
    · rw [unlock_fst_invalid hsel] at hok
      cases hok
    by_cases hemp : (db.locks.filter (unlockMatchFilter req)).isEmpty = true
    · rw [unlock_fst_notFound hsel hemp] at hok
      cases hok
    have hokk := unlock_fst_ok hsel hemp
    have hcommit : commitOf db (.opUnlock req) =
        (unlockLoop db (db.locks.filter (unlockMatchFilter req))).1 :=
      commitOf_opUnlock_ok hokk
    have hempty2 : (commitOf db (.opUnlock req)).locks.filter (unlockMatchFilter req)
        = [] := by
      rw [hcommit, List.filter_eq_nil]
      intro y hy hf
      have h2 := unlockLoop_no_locked_left req
        (db.locks.filter (unlockMatchFilter req)) db y hy hf
      exact absurd (List.mem_filter.mpr ⟨h2.1, hf⟩) h2.2
    have hemp2 : ((commitOf db (.opUnlock req)).locks.filter
        (unlockMatchFilter req)).isEmpty = true := by
      rw [hempty2]
      rfl
    exact unlock_fst_notFound hsel hemp2
  · intro hreach sono x hok
    have hinv := invFull_of_reachable hreach
    by_cases hemp : (db.locks.filter (fun l => l.source_order_no == sono &&
        decide (l.status = LockStatus.LOCKED))).isEmpty = true
    · rw [consume_fst_err hemp] at hok
      cases hok
    have hokk := consume_fst_ok hemp
    have hcommit : commitOf db (.opConsume sono) =
        (consumeLoop sono db (db.locks.filter (fun l => l.source_order_no == sono &&
          decide (l.status = LockStatus.LOCKED)))).1 :=
      commitOf_opConsume_ok hokk
    have hM : ∀ l ∈ db.locks.filter (fun l => l.source_order_no == sono &&
        decide (l.status = LockStatus.LOCKED)),
        l ∈ db.locks ∧ l.status = LockStatus.LOCKED := by
      intro l hl
      refine ⟨List.mem_of_mem_filter hl, ?_⟩
      have h2 := List.of_mem_filter hl
      simp only [Bool.and_eq_true, decide_eq_true_eq] at h2
      exact h2.2
    have hpw := hinv.lockNosPW.filter
      (fun l => l.source_order_no == sono && decide (l.status = LockStatus.LOCKED))
    have hempty2 : (commitOf db (.opConsume sono)).locks.filter (fun l =>
        l.source_order_no == sono && decide (l.status = LockStatus.LOCKED)) = [] := by
      rw [hcommit, List.filter_eq_nil]
      intro y hy hf
      have h2 := consumeLoop_no_locked_left sono _ db hinv hM hpw y hy hf
      exact absurd (List.mem_filter.mpr ⟨h2.1, hf⟩) h2.2
    have hemp2 : ((commitOf db (.opConsume sono)).locks.filter (fun l =>
        l.source_order_no == sono && decide (l.status = LockStatus.LOCKED))).isEmpty
        = true := by
      rw [hempty2]
      rfl
    exact consume_fst_err hemp2

theorem c8_witness :
    (consume_locked_stock (commitOf dbL (.opConsume "O1")) "O1").1 =
      .error .LOCK_NOT_FOUND :=
  (c8_no_double_release dbL).2.2.2 reachable_dbL "O1" (dbCc, 50) consume_dbL_fst

/-- Claim C9 counterexample: a receive whose item list mentions the same
`(sku, warehouse)` key twice writes two movement rows and publishes two
notifications for that key, not one per key; and `lock_stock` publishes no
notification at all (its trace is only the commit event). -/
theorem c9_counterexample :
    moveCount (stock_in initDB reqDup).1.moves "A" 1 = 2 ∧
    pubCount (stock_in initDB reqDup).2 "A" 1 = 2 ∧
    (lock_stock dbA1 reqLock5).2 = [Ev.commit] := by
  have h := stock_in_dup_eval
  have hl := lock_dbA1_eval
  refine ⟨?_, ?_, ?_⟩
  · rw [h]
    rfl
  · rw [h]
    rfl
  · rw [hl]

/-- Claim C9 (amended): `stock_in` writes exactly one movement row and one
notification per request ITEM — so a key listed twice gets two of each —
and `lock_stock` / `unlock_stock` publish no stock-changed notification at
all: their traces hold only the commit event. -/
theorem c9_per_item_counts (db : DB) (sku : String) (wh : Int) :
    (∀ req : StockInRequest,
      moveCount (stock_in db req).1.moves sku wh = moveCount db.moves sku wh +
        (req.items.filter (fun it => it.sku_id == sku && req.warehouse_id == wh)).length ∧
      pubCount (stock_in db req).2 sku wh =
        (req.items.filter (fun it => it.sku_id == sku && req.warehouse_id == wh)).length) ∧
    (∀ req : StockLockRequest, ∀ e ∈ (lock_stock db req).2, e = Ev.commit) ∧
    (∀ req : StockUnlockRequest, ∀ e ∈ (unlock_stock db req).2, e = Ev.commit) := by
  refine ⟨?_, lock_stock_no_publish db, unlock_stock_no_publish db⟩
  intro req
  constructor
  · show moveCount (stockInLoop req.warehouse_id req.source_type req.source_order_no db
        req.items).1.moves sku wh = moveCount db.moves sku wh +
        (req.items.filter (fun it => it.sku_id == sku && req.warehouse_id == wh)).length
    exact stockInLoop_moveCount req.warehouse_id req.source_type req.source_order_no
      sku wh req.items db
  · show pubCount ((stockInLoop req.warehouse_id req.source_type req.source_order_no db
        req.items).2 ++ [Ev.commit]) sku wh =
        (req.items.filter (fun it => it.sku_id == sku && req.warehouse_id == wh)).length
    rw [pubCount_append_commit]
    exact stockInLoop_pubCount req.warehouse_id req.source_type req.source_order_no
      sku wh req.items db

theorem c9_witness :
    (moveCount (stock_in dbA1 reqDup).1.moves "A" 1 = moveCount dbA1.moves "A" 1 +
        (reqDup.items.filter (fun it => it.sku_id == "A" &&
          reqDup.warehouse_id == 1)).length ∧
      pubCount (stock_in dbA1 reqDup).2 "A" 1 =
        (reqDup.items.filter (fun it => it.sku_id == "A" &&
          reqDup.warehouse_id == 1)).length) ∧
    Ev.commit = Ev.commit :=
  ⟨(c9_per_item_counts dbA1 "A" 1).1 reqDup,
   (c9_per_item_counts dbA1 "A" 1).2.1 reqLock5 Ev.commit
     (by rw [lock_dbA1_eval]; exact List.mem_singleton_self Ev.commit)⟩

/-- Claim C10: an `unlock_stock` request whose lock-number list and source
order number are both falsy (absent, or empty) fails with `INVALID_REQUEST`
— before any lock-record lookup — and the committed state is exactly the
prior state. -/
theorem c10_invalid_request {db : DB} {req : StockUnlockRequest}
    (h1 : pyTruthyList req.lock_nos = false)
    (h2 : pyTruthyStr req.source_order_no = false) :
    (unlock_stock db req).1 = .error .INVALID_REQUEST ∧
    commitOf db (.opUnlock req) = db := by
  have hsel : (!pyTruthyList req.lock_nos && !pyTruthyStr req.source_order_no) = true := by
    rw [h1, h2]
    rfl
  have herr := @unlock_fst_invalid db req hsel
  exact ⟨herr, commitOf_opUnlock_error herr⟩

theorem c10_witness :
    (unlock_stock dbA1 (⟨some [], some ""⟩ : StockUnlockRequest)).1 =
      .error .INVALID_REQUEST ∧
    commitOf dbA1 (.opUnlock ⟨some [], some ""⟩) = dbA1 :=
  c10_invalid_request rfl rfl

end ErpStock
